import Mathlib

/-!
# Water particle simulation (`main.cpp`)

A shallow embedding of the particle physics of `main.cpp`: the `WaterParticle`
methods `update`, `applySpringForce`, `applySurfaceTension`,
`applyRippleEffect`, `applyWaveMotion`, and the parts of the frame loop of
`main` that touch the particle vector and the water level.

The C++ `float` is read as exact arithmetic: every definition is written over
an arbitrary linear ordered field `α` (so it runs on `ℚ` and specialises to
`ℝ`), and the two library calls `std::sqrt` and `std::sin` are passed as
function arguments (`Real.sqrt` and `Real.sin` over `ℝ`).  The decimal
constants are their exact decimal values.

One method, `applyWaveMotion`, is embedded a second time with every `float`
operation rounded to binary32 (`applyWaveMotionF32`), to show where the exact
reading and the rounded program part ways.
-/

namespace WaterSim

variable {α : Type} [LinearOrderedField α]

/-! ## Data model -/

/-- The `Vector2` struct: two `float` coordinates. -/
structure Vector2 (α : Type) where
  x : α
  y : α
  deriving DecidableEq, Repr

/-- The data members of class `WaterParticle`. -/
structure WaterParticle (α : Type) where
  position : Vector2 α
  velocity : Vector2 α
  deriving DecidableEq, Repr

/-! ## Constants (lines 12-22) -/

/-- Spring constant. -/
def k : α := 0.015
/-- Spread factor. -/
def spread : α := 0.005
/-- Spring separation in OpenGL coordinates. -/
def springSeparation : α := 24.0 / 640.0
/-- Gravity. -/
def gravity : α := 0.002
/-- Buoyancy factor. -/
def buoyancyFactor : α := 0.003
/-- Drag factor. -/
def dragFactor : α := 0.98
/-- Surface tension factor. -/
def tensionFactor : α := 0.007
/-- Damping factor. -/
def dampingFactor : α := 0.98
/-- Ripple effect factor. -/
def rippleFactor : α := 0.001
/-- Wave motion factor. -/
def waveFactor : α := 0.01
/-- Water level increment per particle. -/
def waterLevelIncrement : α := 0.001

/-! ## `WaterParticle` methods -/

/-- The constructor `WaterParticle(float x, float y)`. -/
def WaterParticle.new (x y : α) : WaterParticle α :=
  { position := ⟨x, y⟩, velocity := ⟨0, 0⟩ }

/-- Lines 36-54 of `update`: gravity, buoyancy, drag, damping and the position
update, statement by statement. -/
def integrate (p : WaterParticle α) (waterLevel : α) : WaterParticle α :=
  -- velocity.y -= gravity;
  let vy := p.velocity.y - gravity
  -- if (position.y < waterLevel) velocity.y += buoyancyFactor;
  let vy := if p.position.y < waterLevel then vy + buoyancyFactor else vy
  -- velocity.x *= dragFactor; velocity.y *= dragFactor;
  let vx := p.velocity.x * dragFactor
  let vy := vy * dragFactor
  -- velocity.x *= dampingFactor; velocity.y *= dampingFactor;
  let vx := vx * dampingFactor
  let vy := vy * dampingFactor
  -- position.x += velocity.x; position.y += velocity.y;
  { position := ⟨p.position.x + vx, p.position.y + vy⟩, velocity := ⟨vx, vy⟩ }

/-- Lines 56-72 of `update`: the four boundary tests, in source order. -/
def collide (p : WaterParticle α) : WaterParticle α :=
  let p := if p.position.y < -1.0
    then { position := ⟨p.position.x, -1.0⟩, velocity := ⟨p.velocity.x, 0.0⟩ } else p
  let p := if p.position.y > 1.0
    then { position := ⟨p.position.x, 1.0⟩, velocity := ⟨p.velocity.x, 0.0⟩ } else p
  let p := if p.position.x < -1.0
    then { position := ⟨-1.0, p.position.y⟩, velocity := ⟨0.0, p.velocity.y⟩ } else p
  let p := if p.position.x > 1.0
    then { position := ⟨1.0, p.position.y⟩, velocity := ⟨0.0, p.velocity.y⟩ } else p
  p

/-- The method `WaterParticle::update(float waterLevel)`. -/
def update (p : WaterParticle α) (waterLevel : α) : WaterParticle α :=
  collide (integrate p waterLevel)

/-- The method `applySpringForce(const WaterParticle& other)` (lines 75-88);
`sqrt` stands for `std::sqrt`. -/
def applySpringForce (sqrt : α → α) (self other : WaterParticle α) : WaterParticle α :=
  let dx := other.position.x - self.position.x
  let dy := other.position.y - self.position.y
  let distance := sqrt (dx * dx + dy * dy)
  if distance < springSeparation ∧ distance > 0.0 then
    let force := k * (distance - springSeparation)
    let dx := dx / distance
    let dy := dy / distance
    let mass : α := 1.0
    { position := self.position,
      velocity := ⟨self.velocity.x + (force * dx * spread) / mass,
                   self.velocity.y + (force * dy * spread) / mass⟩ }
  else self

/-- The method `applySurfaceTension(const WaterParticle& other)` (lines 90-103). -/
def applySurfaceTension (sqrt : α → α) (self other : WaterParticle α) : WaterParticle α :=
  let dx := other.position.x - self.position.x
  let dy := other.position.y - self.position.y
  let distance := sqrt (dx * dx + dy * dy)
  if distance > springSeparation ∧ distance < 2 * springSeparation then
    let force := tensionFactor * (2 * springSeparation - distance)
    let dx := dx / distance
    let dy := dy / distance
    let mass : α := 1.0
    { position := self.position,
      velocity := ⟨self.velocity.x + (force * dx) / mass,
                   self.velocity.y + (force * dy) / mass⟩ }
  else self

/-- The method `applyRippleEffect(const Vector2& rippleCenter)` (lines 105-118). -/
def applyRippleEffect (sqrt : α → α) (self : WaterParticle α) (rippleCenter : Vector2 α) :
    WaterParticle α :=
  let dx := rippleCenter.x - self.position.x
  let dy := rippleCenter.y - self.position.y
  let distance := sqrt (dx * dx + dy * dy)
  if distance < 0.1 ∧ distance > 0.0 then
    let force := rippleFactor * (0.1 - distance)
    let dx := dx / distance
    let dy := dy / distance
    let mass : α := 1.0
    { position := self.position,
      velocity := ⟨self.velocity.x - (force * dx) / mass,
                   self.velocity.y - (force * dy) / mass⟩ }
  else self

/-- The method `applyWaveMotion(const Vector2& waveSource)` (lines 120-129);
`sin` stands for `std::sin`. -/
def applyWaveMotion (sqrt sin : α → α) (self : WaterParticle α) (waveSource : Vector2 α) :
    WaterParticle α :=
  let dx := waveSource.x - self.position.x
  let dy := waveSource.y - self.position.y
  let distance := sqrt (dx * dx + dy * dy)
  if distance < 0.3 ∧ distance > 0.0 then
    let force := waveFactor * sin (distance * 10.0)
    { position := self.position,
      velocity := ⟨self.velocity.x + force * dx, self.velocity.y + force * dy⟩ }
  else self

/-- The value of the local `distance` that each of the four methods computes
from its own position and the other point (lines 76-77, 91-92, 106-107,
121-122). -/
def distanceTo (sqrt : α → α) (self target : Vector2 α) : α :=
  let dx := target.x - self.x
  let dy := target.y - self.y
  sqrt (dx * dx + dy * dy)

/-! ### The same methods with the division by `distance` instrumented

Field division is total in Lean, so to speak about a division by a zero
`distance` the three dividing methods are embedded a second time with
`checkedDiv`, which yields `none` exactly when the divisor is zero. -/

/-- The quotient `a / b`, or `none` when the divisor is zero. -/
def checkedDiv (a b : α) : Option α :=
  if b = 0 then none else some (a / b)

/-- The method `applySpringForce` with `direction /= distance` instrumented. -/
def applySpringForceChecked (sqrt : α → α) (self other : WaterParticle α) :
    Option (WaterParticle α) :=
  let dx := other.position.x - self.position.x
  let dy := other.position.y - self.position.y
  let distance := sqrt (dx * dx + dy * dy)
  if distance < springSeparation ∧ distance > 0.0 then
    let force := k * (distance - springSeparation)
    (checkedDiv dx distance).bind fun dx =>
    (checkedDiv dy distance).bind fun dy =>
    let mass : α := 1.0
    some { position := self.position,
           velocity := ⟨self.velocity.x + (force * dx * spread) / mass,
                        self.velocity.y + (force * dy * spread) / mass⟩ }
  else some self

/-- The method `applySurfaceTension` with `direction /= distance` instrumented. -/
def applySurfaceTensionChecked (sqrt : α → α) (self other : WaterParticle α) :
    Option (WaterParticle α) :=
  let dx := other.position.x - self.position.x
  let dy := other.position.y - self.position.y
  let distance := sqrt (dx * dx + dy * dy)
  if distance > springSeparation ∧ distance < 2 * springSeparation then
    let force := tensionFactor * (2 * springSeparation - distance)
    (checkedDiv dx distance).bind fun dx =>
    (checkedDiv dy distance).bind fun dy =>
    let mass : α := 1.0
    some { position := self.position,
           velocity := ⟨self.velocity.x + (force * dx) / mass,
                        self.velocity.y + (force * dy) / mass⟩ }
  else some self

/-- The method `applyRippleEffect` with `direction /= distance` instrumented. -/
def applyRippleEffectChecked (sqrt : α → α) (self : WaterParticle α)
    (rippleCenter : Vector2 α) : Option (WaterParticle α) :=
  let dx := rippleCenter.x - self.position.x
  let dy := rippleCenter.y - self.position.y
  let distance := sqrt (dx * dx + dy * dy)
  if distance < 0.1 ∧ distance > 0.0 then
    let force := rippleFactor * (0.1 - distance)
    (checkedDiv dx distance).bind fun dx =>
    (checkedDiv dy distance).bind fun dy =>
    let mass : α := 1.0
    some { position := self.position,
           velocity := ⟨self.velocity.x - (force * dx) / mass,
                        self.velocity.y - (force * dy) / mass⟩ }
  else some self

/-! ## The frame loop of `main` -/

/-- The simulation state held by `main`: the vector `waterParticles` and the
scalar `waterLevel`. -/
structure SimState (α : Type) where
  waterParticles : List (WaterParticle α)
  waterLevel : α

/-- The state at line 162: no particles, water level at the bottom. -/
def initialState : SimState α :=
  { waterParticles := [], waterLevel := -1.0 }

/-- The statement `waterParticles[i].f(waterParticles[j])`. -/
def applyAt (f : WaterParticle α → WaterParticle α → WaterParticle α)
    (ps : List (WaterParticle α)) (i j : Nat) : List (WaterParticle α) :=
  match ps[i]?, ps[j]? with
  | some a, some b => ps.set i (f a b)
  | _, _ => ps

/-- The body of the inner loop (lines 199-202). -/
def pairBody (sqrt : α → α) (ps : List (WaterParticle α)) (i j : Nat) :
    List (WaterParticle α) :=
  let ps := applyAt (applySpringForce sqrt) ps i j
  let ps := applyAt (applySpringForce sqrt) ps j i
  let ps := applyAt (applySurfaceTension sqrt) ps i j
  let ps := applyAt (applySurfaceTension sqrt) ps j i
  ps

/-- The loop nest of lines 197-198 over a collection of size `n`, for an
arbitrary loop body acting on a state `σ`:
`for (i = 0; i < n; ++i) for (j = i + 1; j < n; ++j) body(i, j)`. -/
def forPairs {σ : Type} (n : Nat) (body : σ → Nat → Nat → σ) (init : σ) : σ :=
  (List.range n).foldl
    (fun s i => (List.range' (i + 1) (n - (i + 1))).foldl (fun s j => body s i j) s) init

/-- The pairwise loop of lines 197-204. -/
def applyPairwiseForces (sqrt : α → α) (ps : List (WaterParticle α)) :
    List (WaterParticle α) :=
  forPairs ps.length (pairBody sqrt) ps

/-- The index pairs the loop nest hands to its body, in order of evaluation. -/
def visitedPairs (n : Nat) : List (Nat × Nat) :=
  forPairs n (fun visited i j => visited ++ [(i, j)]) []

/-- The loop of lines 207-210 without the drawing: every particle is updated. -/
def updateParticles (waterLevel : α) (ps : List (WaterParticle α)) :
    List (WaterParticle α) :=
  ps.map fun particle => update particle waterLevel

/-- Lines 231-234: raise the water level and cap it. -/
def raiseWaterLevel (waterLevel : α) : α :=
  let waterLevel := waterLevel + waterLevelIncrement
  if waterLevel > 1.0 then 1.0 else waterLevel

/-- The handling of a click at OpenGL coordinates `(x, y)` (lines 227-245). -/
def insertAndRipple (sqrt sin : α → α) (x y : α) (s : SimState α) : SimState α :=
  -- waterParticles.emplace_back(x, y);
  let ps := s.waterParticles ++ [WaterParticle.new x y]
  let waterLevel := raiseWaterLevel s.waterLevel
  let rippleCenter : Vector2 α := ⟨x, y⟩
  let ps := ps.map fun particle => applyRippleEffect sqrt particle rippleCenter
  let ps := ps.map fun particle => applyWaveMotion sqrt sin particle rippleCenter
  { waterParticles := ps, waterLevel := waterLevel }

/-- The three state-changing phases of one pass through the frame loop. -/
inductive Event (α : Type) where
  | pairwise : Event α
  | updateAll : Event α
  | click (x y : α) : Event α

/-- The effect of one phase on the state. -/
def applyEvent (sqrt sin : α → α) (s : SimState α) : Event α → SimState α
  | Event.pairwise => { s with waterParticles := applyPairwiseForces sqrt s.waterParticles }
  | Event.updateAll => { s with waterParticles := updateParticles s.waterLevel s.waterParticles }
  | Event.click x y => insertAndRipple sqrt sin x y s

/-- One iteration of the `while` loop (lines 179-247): the pairwise loop, the
update loop, then the click handling when the mouse button is pressed. -/
def frame (sqrt sin : α → α) (s : SimState α) (click : Option (α × α)) : SimState α :=
  let s := applyEvent sqrt sin s Event.pairwise
  let s := applyEvent sqrt sin s Event.updateAll
  match click with
  | some (x, y) => applyEvent sqrt sin s (Event.click x y)
  | none => s

/-- The state after a sequence of phases, started from `s`. -/
def runEvents (sqrt sin : α → α) (s : SimState α) (events : List (Event α)) : SimState α :=
  events.foldl (applyEvent sqrt sin) s

/-! ## Velocity changes in closed form

The pairwise methods read only the two positions and add to `velocity`.  The
functions below give what each of them adds, as a function of the two
positions; the theorems `applySpringForce_eq_addVelocity` and
`applySurfaceTension_eq_addVelocity` tie them to the methods. -/

/-- The statements `velocity.x += d.x; velocity.y += d.y;`. -/
def addVelocity (p : WaterParticle α) (d : Vector2 α) : WaterParticle α :=
  { position := p.position, velocity := ⟨p.velocity.x + d.x, p.velocity.y + d.y⟩ }

/-- What `applySpringForce` adds to the velocity of a particle at `self` for
another particle at `other` (lines 76-87); `(0, 0)` when the test fails. -/
def springImpulse (sqrt : α → α) (self other : Vector2 α) : Vector2 α :=
  let dx := other.x - self.x
  let dy := other.y - self.y
  let distance := sqrt (dx * dx + dy * dy)
  if distance < springSeparation ∧ distance > 0.0 then
    let force := k * (distance - springSeparation)
    let dx := dx / distance
    let dy := dy / distance
    let mass : α := 1.0
    ⟨(force * dx * spread) / mass, (force * dy * spread) / mass⟩
  else ⟨0, 0⟩

/-- What `applySurfaceTension` adds to the velocity of a particle at `self` for
another particle at `other` (lines 91-102); `(0, 0)` when the test fails. -/
def tensionImpulse (sqrt : α → α) (self other : Vector2 α) : Vector2 α :=
  let dx := other.x - self.x
  let dy := other.y - self.y
  let distance := sqrt (dx * dx + dy * dy)
  if distance > springSeparation ∧ distance < 2 * springSeparation then
    let force := tensionFactor * (2 * springSeparation - distance)
    let dx := dx / distance
    let dy := dy / distance
    let mass : α := 1.0
    ⟨(force * dx) / mass, (force * dy) / mass⟩
  else ⟨0, 0⟩

/-- What one evaluation of the inner loop body adds to the velocity of the
particle at `self` on account of the particle at `other`: spring, then surface
tension. -/
def pairImpulse (sqrt : α → α) (self other : Vector2 α) : Vector2 α :=
  ⟨(springImpulse sqrt self other).x + (tensionImpulse sqrt self other).x,
   (springImpulse sqrt self other).y + (tensionImpulse sqrt self other).y⟩

/-- The sum of `pairImpulse` for a particle at `self` over a list of positions
of other particles. -/
def netImpulse (sqrt : α → α) (others : List (Vector2 α)) (self : Vector2 α) : Vector2 α :=
  ⟨(others.map fun o => (pairImpulse sqrt self o).x).sum,
   (others.map fun o => (pairImpulse sqrt self o).y).sum⟩

/-! ## `applyWaveMotion` in binary32

The type `float` is IEEE 754 binary32: a 24-bit significand, the exponent of
the last place at least `-149`, and every operation rounded to the nearest
value, ties to the even significand.  Values beyond the largest finite `float`
are not treated (no operation of the method comes near them on inputs of the
simulation box). -/

/-- The integer nearest to `y`, the even one of the two when `y` lies half way. -/
def roundTiesEven [FloorRing α] (y : α) : ℤ :=
  let f := ⌊y⌋
  if y - f < 1 / 2 then f
  else if y - f > 1 / 2 then f + 1
  else if f % 2 = 0 then f else f + 1

/-- The binary32 value nearest to `x`: the last place has exponent
`max (⌊log₂ |x|⌋) (-126) - 23`. -/
def roundF32 [FloorRing α] (x : α) : α :=
  if x = 0 then 0
  else
    let e : ℤ := max (Int.log 2 |x|) (-126) - 23
    (roundTiesEven (x / 2 ^ e) : α) * 2 ^ e

/-- The value of the local `distance` of `applyWaveMotion` (lines 121-122) with
each `float` operation rounded; `std::sqrt` on `float` is the correctly rounded
square root. -/
def distanceToF32 [FloorRing α] (sqrt : α → α) (self target : Vector2 α) : α :=
  let dx := roundF32 (target.x - self.x)
  let dy := roundF32 (target.y - self.y)
  roundF32 (sqrt (roundF32 (roundF32 (dx * dx) + roundF32 (dy * dy))))

/-- The method `applyWaveMotion` (lines 120-129) with each `float` operation
rounded to binary32 and the literals `0.3f`, `0.0f`, `10.0f` and the constant
`waveFactor` taken as the nearest binary32 values; `sqrt` and `sin` are the
exact functions, and `std::sqrt`, `std::sin` on `float` return their rounded
values. -/
def applyWaveMotionF32 [FloorRing α] (sqrt sin : α → α) (self : WaterParticle α)
    (waveSource : Vector2 α) : WaterParticle α :=
  let dx := roundF32 (waveSource.x - self.position.x)
  let dy := roundF32 (waveSource.y - self.position.y)
  let distance := roundF32 (sqrt (roundF32 (roundF32 (dx * dx) + roundF32 (dy * dy))))
  if distance < roundF32 0.3 ∧ distance > roundF32 0.0 then
    let force :=
      roundF32 (roundF32 waveFactor * roundF32 (sin (roundF32 (distance * roundF32 10.0))))
    { position := self.position,
      velocity := ⟨roundF32 (self.velocity.x + roundF32 (force * dx)),
                   roundF32 (self.velocity.y + roundF32 (force * dy))⟩ }
  else self

/-! ## Theorems -/

theorem collide_bounds (p : WaterParticle α) :
    -1 ≤ (collide p).position.x ∧ (collide p).position.x ≤ 1 ∧
    -1 ≤ (collide p).position.y ∧ (collide p).position.y ≤ 1 := by
  unfold collide
  simp only []
  split_ifs <;> refine ⟨?_, ?_, ?_, ?_⟩ <;> norm_num at * <;> linarith

theorem collide_inside (p : WaterParticle α) (hx1 : -1 ≤ p.position.x)
    (hx2 : p.position.x ≤ 1) (hy1 : -1 ≤ p.position.y) (hy2 : p.position.y ≤ 1) :
    collide p = p := by
  have c1 : ¬ p.position.y < -1.0 := by norm_num; exact hy1
  have c2 : ¬ p.position.y > 1.0 := by norm_num; exact hy2
  have c3 : ¬ p.position.x < -1.0 := by norm_num; exact hx1
  have c4 : ¬ p.position.x > 1.0 := by norm_num; exact hx2
  simp only [collide, if_neg c1, if_neg c2, if_neg c3, if_neg c4]

/-- C1: after one call of `update`, for any particle and any water level, the
position lies in the box: `-1 ≤ x ≤ 1` and `-1 ≤ y ≤ 1`. -/
theorem update_position_in_box (p : WaterParticle α) (waterLevel : α) :
    -1 ≤ (update p waterLevel).position.x ∧ (update p waterLevel).position.x ≤ 1 ∧
    -1 ≤ (update p waterLevel).position.y ∧ (update p waterLevel).position.y ≤ 1 :=
  collide_bounds (integrate p waterLevel)

/-- C3: before the boundary tests, `update` has computed the velocity
`vx * D * Dm` and `(vy - G + b) * D * Dm`, with `b = B` when the old
`position.y` is below the water level and `b = 0` otherwise, and the position
is the old position plus that velocity; the boundary tests then run on this
intermediate particle. -/
theorem update_integrates_once (p : WaterParticle α) (waterLevel : α) :
    (integrate p waterLevel).velocity.x = p.velocity.x * dragFactor * dampingFactor ∧
    (integrate p waterLevel).velocity.y =
      (p.velocity.y - gravity + (if p.position.y < waterLevel then buoyancyFactor else 0))
        * dragFactor * dampingFactor ∧
    (integrate p waterLevel).position.x =
      p.position.x + (integrate p waterLevel).velocity.x ∧
    (integrate p waterLevel).position.y =
      p.position.y + (integrate p waterLevel).velocity.y ∧
    update p waterLevel = collide (integrate p waterLevel) := by
  refine ⟨rfl, ?_, rfl, rfl, rfl⟩
  unfold integrate
  split_ifs <;> simp

/-- C4: per axis, with `q` the particle after the position update: a coordinate
of `q` above `1` ends at exactly `1` with zero velocity on that axis, one below
`-1` ends at exactly `-1` with zero velocity, and otherwise coordinate and
velocity component are those of `q`. -/
theorem update_clamps_each_axis (p : WaterParticle α) (waterLevel : α) :
    (update p waterLevel).position.x =
      (if (integrate p waterLevel).position.x > 1 then 1
       else if (integrate p waterLevel).position.x < -1 then -1
       else (integrate p waterLevel).position.x) ∧
    (update p waterLevel).velocity.x =
      (if (integrate p waterLevel).position.x > 1 then 0
       else if (integrate p waterLevel).position.x < -1 then 0
       else (integrate p waterLevel).velocity.x) ∧
    (update p waterLevel).position.y =
      (if (integrate p waterLevel).position.y > 1 then 1
       else if (integrate p waterLevel).position.y < -1 then -1
       else (integrate p waterLevel).position.y) ∧
    (update p waterLevel).velocity.y =
      (if (integrate p waterLevel).position.y > 1 then 0
       else if (integrate p waterLevel).position.y < -1 then 0
       else (integrate p waterLevel).velocity.y) := by
  unfold update
  generalize integrate p waterLevel = q
  refine ⟨?_, ?_, ?_, ?_⟩ <;>
    simp only [collide, apply_ite WaterParticle.position, apply_ite WaterParticle.velocity,
      apply_ite Vector2.x, apply_ite Vector2.y, ite_self] <;>
    split_ifs <;> norm_num at * <;> linarith

/-- C4, the stated instance: position `(0.0, 0.999)` with velocity `(0, 1.0)`
ends with `position.y = 1` and `velocity.y = 0`, whatever the water level. -/
theorem update_clamps_each_axis_witness :
    (update (⟨⟨0.0, 0.999⟩, ⟨0, 1.0⟩⟩ : WaterParticle ℚ) (-1.0)).position.y = 1.0 ∧
    (update (⟨⟨0.0, 0.999⟩, ⟨0, 1.0⟩⟩ : WaterParticle ℚ) (-1.0)).velocity.y = 0.0 ∧
    (update (⟨⟨0.0, 0.999⟩, ⟨0, 1.0⟩⟩ : WaterParticle ℚ) 1.0).position.y = 1.0 ∧
    (update (⟨⟨0.0, 0.999⟩, ⟨0, 1.0⟩⟩ : WaterParticle ℚ) 1.0).velocity.y = 0.0 := by
  have h1 := update_clamps_each_axis (⟨⟨0.0, 0.999⟩, ⟨0, 1.0⟩⟩ : WaterParticle ℚ) (-1.0)
  have h2 := update_clamps_each_axis (⟨⟨0.0, 0.999⟩, ⟨0, 1.0⟩⟩ : WaterParticle ℚ) 1.0
  refine ⟨?_, ?_, ?_, ?_⟩
  · rw [h1.2.2.1]; norm_num [integrate, gravity, buoyancyFactor, dragFactor, dampingFactor]
  · rw [h1.2.2.2]; norm_num [integrate, gravity, buoyancyFactor, dragFactor, dampingFactor]
  · rw [h2.2.2.1]; norm_num [integrate, gravity, buoyancyFactor, dragFactor, dampingFactor]
  · rw [h2.2.2.2]; norm_num [integrate, gravity, buoyancyFactor, dragFactor, dampingFactor]

/-- C2 as stated fails: the particle at rest at `(0, 0)` with water level `-1`
is not submerged and is not clamped (the boundary tests change nothing), yet
after `update` its `velocity.y` is `-G * D * Dm = -0.0019208`, not `-G`, and its
position is not `(0, -G)`; likewise for `(0.2, 0.3)` with water level
`-1 + increment`. -/
theorem update_at_rest_not_minus_gravity :
    (WaterParticle.new (0 : ℚ) 0).velocity = ⟨0, 0⟩ ∧
    (WaterParticle.new (0 : ℚ) 0).position.y ≥ -1.0 ∧
    update (WaterParticle.new (0 : ℚ) 0) (-1.0) = integrate (WaterParticle.new (0 : ℚ) 0) (-1.0) ∧
    (update (WaterParticle.new (0 : ℚ) 0) (-1.0)).velocity.y = -0.0019208 ∧
    (update (WaterParticle.new (0 : ℚ) 0) (-1.0)).velocity.y ≠ -gravity ∧
    (update (WaterParticle.new (0 : ℚ) 0) (-1.0)).position ≠ ⟨0, 0 - gravity⟩ ∧
    (WaterParticle.new (0.2 : ℚ) 0.3).position.y ≥ -1.0 + waterLevelIncrement ∧
    (update (WaterParticle.new (0.2 : ℚ) 0.3) (-1.0 + waterLevelIncrement)).velocity.y
      ≠ -gravity ∧
    (update (WaterParticle.new (0.2 : ℚ) 0.3) (-1.0 + waterLevelIncrement)).position
      ≠ ⟨0.2, 0.3 - gravity⟩ := by
  refine ⟨rfl, ?_, ?_, ?_, ?_, ?_, ?_, ?_, ?_⟩ <;>
    norm_num [update, collide, integrate, WaterParticle.new, gravity, dragFactor,
      dampingFactor, buoyancyFactor, waterLevelIncrement]

/-- C2, amended: a particle with zero velocity that is not submerged and whose
position after the position update stays inside the box leaves `update` with
`velocity.x = 0`, `velocity.y = -G * D * Dm` (gravity followed by drag and
damping) and position `(x, y - G * D * Dm)`. -/
theorem update_at_rest (p : WaterParticle α) (waterLevel : α)
    (hv : p.velocity = ⟨0, 0⟩) (hdry : p.position.y ≥ waterLevel)
    (hx : -1 ≤ p.position.x ∧ p.position.x ≤ 1)
    (hy : -1 ≤ p.position.y - gravity * dragFactor * dampingFactor ∧
      p.position.y - gravity * dragFactor * dampingFactor ≤ 1) :
    (update p waterLevel).velocity.x = 0 ∧
    (update p waterLevel).velocity.y = -gravity * dragFactor * dampingFactor ∧
    (update p waterLevel).position =
      ⟨p.position.x, p.position.y - gravity * dragFactor * dampingFactor⟩ := by
  have hnot : ¬ p.position.y < waterLevel := not_lt.mpr hdry
  have hq : integrate p waterLevel =
      { position := ⟨p.position.x, p.position.y - gravity * dragFactor * dampingFactor⟩,
        velocity := ⟨0, -gravity * dragFactor * dampingFactor⟩ } := by
    simp only [integrate, hv, if_neg hnot, WaterParticle.mk.injEq, Vector2.mk.injEq]
    refine ⟨⟨by ring, by ring⟩, by ring, by ring⟩
  rw [update, hq, collide_inside _ (by exact hx.1) (by exact hx.2) (by exact hy.1) (by exact hy.2)]
  exact ⟨rfl, rfl, rfl⟩

/-- C2, amended, at the particle at rest at `(0, 0)` with water level `-1`. -/
theorem update_at_rest_witness :
    (update (WaterParticle.new (0 : ℚ) 0) (-1)).velocity.x = 0 ∧
    (update (WaterParticle.new (0 : ℚ) 0) (-1)).velocity.y
      = -gravity * dragFactor * dampingFactor ∧
    (update (WaterParticle.new (0 : ℚ) 0) (-1)).position
      = ⟨0, 0 - gravity * dragFactor * dampingFactor⟩ :=
  update_at_rest (WaterParticle.new (0 : ℚ) 0) (-1) rfl
    (by norm_num [WaterParticle.new])
    (by norm_num [WaterParticle.new])
    (by norm_num [WaterParticle.new, gravity, dragFactor, dampingFactor])

/-! ### Pairwise forces -/

theorem distanceTo_swap (sqrt : α → α) (a b : Vector2 α) :
    distanceTo sqrt a b = distanceTo sqrt b a := by
  simp only [distanceTo]
  congr 1
  ring

theorem applySpringForce_position (sqrt : α → α) (self other : WaterParticle α) :
    (applySpringForce sqrt self other).position = self.position := by
  unfold applySpringForce
  simp only []
  split_ifs <;> rfl

theorem applySpringForce_velocity_of_range (sqrt : α → α) (self other : WaterParticle α)
    (h0 : 0 < distanceTo sqrt self.position other.position)
    (h1 : distanceTo sqrt self.position other.position < springSeparation) :
    (applySpringForce sqrt self other).velocity =
      ⟨self.velocity.x + k * (distanceTo sqrt self.position other.position - springSeparation)
          * spread / distanceTo sqrt self.position other.position
          * (other.position.x - self.position.x),
       self.velocity.y + k * (distanceTo sqrt self.position other.position - springSeparation)
          * spread / distanceTo sqrt self.position other.position
          * (other.position.y - self.position.y)⟩ := by
  have hg : distanceTo sqrt self.position other.position < springSeparation ∧
      distanceTo sqrt self.position other.position > 0.0 := ⟨h1, by norm_num; exact h0⟩
  simp only [distanceTo] at hg h0 ⊢
  simp only [applySpringForce, if_pos hg, Vector2.mk.injEq]
  constructor <;> · norm_num; ring

/-- C5: when the distance `d` between `A` and `B` satisfies
`0 < d < springSeparation`, after `A.applySpringForce(B)` followed by
`B.applySpringForce(A)` the velocity change of `A` is `c * (B - A)` and the
velocity change of `B` is `c * (A - B)`, with the same scalar
`c = k * (d - springSeparation) * spread / d`: the two changes are opposite and
both lie along the line through `A` and `B`. -/
theorem spring_force_symmetric (A B : WaterParticle ℝ)
    (h0 : 0 < distanceTo Real.sqrt A.position B.position)
    (h1 : distanceTo Real.sqrt A.position B.position < springSeparation) :
    ∃ c : ℝ,
      c = k * (distanceTo Real.sqrt A.position B.position - springSeparation) * spread
            / distanceTo Real.sqrt A.position B.position ∧
      (applySpringForce Real.sqrt A B).velocity.x - A.velocity.x
        = c * (B.position.x - A.position.x) ∧
      (applySpringForce Real.sqrt A B).velocity.y - A.velocity.y
        = c * (B.position.y - A.position.y) ∧
      (applySpringForce Real.sqrt B (applySpringForce Real.sqrt A B)).velocity.x - B.velocity.x
        = c * (A.position.x - B.position.x) ∧
      (applySpringForce Real.sqrt B (applySpringForce Real.sqrt A B)).velocity.y - B.velocity.y
        = c * (A.position.y - B.position.y) ∧
      (applySpringForce Real.sqrt B (applySpringForce Real.sqrt A B)).velocity.x - B.velocity.x
        = -((applySpringForce Real.sqrt A B).velocity.x - A.velocity.x) ∧
      (applySpringForce Real.sqrt B (applySpringForce Real.sqrt A B)).velocity.y - B.velocity.y
        = -((applySpringForce Real.sqrt A B).velocity.y - A.velocity.y) := by
  have hA := applySpringForce_velocity_of_range Real.sqrt A B h0 h1
  have hpos := applySpringForce_position Real.sqrt A B
  have hsw : distanceTo Real.sqrt B.position (applySpringForce Real.sqrt A B).position
      = distanceTo Real.sqrt A.position B.position := by
    rw [hpos, distanceTo_swap]
  have hB := applySpringForce_velocity_of_range Real.sqrt B (applySpringForce Real.sqrt A B)
    (by rw [hsw]; exact h0) (by rw [hsw]; exact h1)
  rw [hsw, hpos] at hB
  refine ⟨_, rfl, ?_, ?_, ?_, ?_, ?_, ?_⟩ <;> simp only [hA, hB] <;> ring

theorem sqrt_gap_three_hundredths :
    distanceTo Real.sqrt (⟨0, 0⟩ : Vector2 ℝ) ⟨0.03, 0⟩ = 0.03 := by
  have h : ((0.03 : ℝ) - 0) * (0.03 - 0) + (0 - 0) * (0 - 0) = 0.03 ^ 2 := by norm_num
  simp only [distanceTo]
  rw [h, Real.sqrt_sq (by norm_num)]

/-- C5 at `A = (0, 0)`, `B = (0.03, 0)`, both at rest: the distance is `0.03`,
inside `(0, 0.0375)`. -/
theorem spring_force_symmetric_witness :
    ∃ c : ℝ,
      c = k * (distanceTo Real.sqrt (⟨0, 0⟩ : Vector2 ℝ) ⟨0.03, 0⟩ - springSeparation) * spread
            / distanceTo Real.sqrt (⟨0, 0⟩ : Vector2 ℝ) ⟨0.03, 0⟩ ∧
      (applySpringForce Real.sqrt ⟨⟨0, 0⟩, ⟨0, 0⟩⟩ ⟨⟨0.03, 0⟩, ⟨0, 0⟩⟩).velocity.x - 0
        = c * (0.03 - 0) ∧
      (applySpringForce Real.sqrt ⟨⟨0, 0⟩, ⟨0, 0⟩⟩ ⟨⟨0.03, 0⟩, ⟨0, 0⟩⟩).velocity.y - 0
        = c * (0 - 0) ∧
      (applySpringForce Real.sqrt ⟨⟨0.03, 0⟩, ⟨0, 0⟩⟩
          (applySpringForce Real.sqrt ⟨⟨0, 0⟩, ⟨0, 0⟩⟩ ⟨⟨0.03, 0⟩, ⟨0, 0⟩⟩)).velocity.x - 0
        = c * (0 - 0.03) ∧
      (applySpringForce Real.sqrt ⟨⟨0.03, 0⟩, ⟨0, 0⟩⟩
          (applySpringForce Real.sqrt ⟨⟨0, 0⟩, ⟨0, 0⟩⟩ ⟨⟨0.03, 0⟩, ⟨0, 0⟩⟩)).velocity.y - 0
        = c * (0 - 0) ∧
      (applySpringForce Real.sqrt ⟨⟨0.03, 0⟩, ⟨0, 0⟩⟩
          (applySpringForce Real.sqrt ⟨⟨0, 0⟩, ⟨0, 0⟩⟩ ⟨⟨0.03, 0⟩, ⟨0, 0⟩⟩)).velocity.x - 0
        = -((applySpringForce Real.sqrt ⟨⟨0, 0⟩, ⟨0, 0⟩⟩ ⟨⟨0.03, 0⟩, ⟨0, 0⟩⟩).velocity.x - 0) ∧
      (applySpringForce Real.sqrt ⟨⟨0.03, 0⟩, ⟨0, 0⟩⟩
          (applySpringForce Real.sqrt ⟨⟨0, 0⟩, ⟨0, 0⟩⟩ ⟨⟨0.03, 0⟩, ⟨0, 0⟩⟩)).velocity.y - 0
        = -((applySpringForce Real.sqrt ⟨⟨0, 0⟩, ⟨0, 0⟩⟩ ⟨⟨0.03, 0⟩, ⟨0, 0⟩⟩).velocity.y - 0) :=
  spring_force_symmetric ⟨⟨0, 0⟩, ⟨0, 0⟩⟩ ⟨⟨0.03, 0⟩, ⟨0, 0⟩⟩
    (by rw [sqrt_gap_three_hundredths]; norm_num)
    (by rw [sqrt_gap_three_hundredths]; norm_num [springSeparation])

/-! ### The division guard -/

theorem checkedDiv_of_ne_zero (a b : α) (hb : b ≠ 0) : checkedDiv a b = some (a / b) := by
  simp [checkedDiv, hb]

theorem applySpringForceChecked_eq (sqrt : α → α) (self other : WaterParticle α) :
    applySpringForceChecked sqrt self other = some (applySpringForce sqrt self other) := by
  unfold applySpringForceChecked applySpringForce
  simp only []
  split_ifs with h
  · have hd : sqrt ((other.position.x - self.position.x) * (other.position.x - self.position.x)
        + (other.position.y - self.position.y) * (other.position.y - self.position.y)) ≠ 0 := by
      have := h.2
      norm_num at this
      exact ne_of_gt this
    simp only [checkedDiv_of_ne_zero _ _ hd, Option.some_bind]
  · rfl

theorem applySurfaceTensionChecked_eq (sqrt : α → α) (self other : WaterParticle α) :
    applySurfaceTensionChecked sqrt self other = some (applySurfaceTension sqrt self other) := by
  unfold applySurfaceTensionChecked applySurfaceTension
  simp only []
  split_ifs with h
  · have hd : sqrt ((other.position.x - self.position.x) * (other.position.x - self.position.x)
        + (other.position.y - self.position.y) * (other.position.y - self.position.y)) ≠ 0 := by
      have h1 := h.1
      have hs : (0 : α) < springSeparation := by norm_num [springSeparation]
      exact ne_of_gt (lt_trans hs h1)
    simp only [checkedDiv_of_ne_zero _ _ hd, Option.some_bind]
  · rfl

theorem applyRippleEffectChecked_eq (sqrt : α → α) (self : WaterParticle α)
    (rippleCenter : Vector2 α) :
    applyRippleEffectChecked sqrt self rippleCenter
      = some (applyRippleEffect sqrt self rippleCenter) := by
  unfold applyRippleEffectChecked applyRippleEffect
  simp only []
  split_ifs with h
  · have hd : sqrt ((rippleCenter.x - self.position.x) * (rippleCenter.x - self.position.x)
        + (rippleCenter.y - self.position.y) * (rippleCenter.y - self.position.y)) ≠ 0 := by
      have := h.2
      norm_num at this
      exact ne_of_gt this
    simp only [checkedDiv_of_ne_zero _ _ hd, Option.some_bind]
  · rfl

theorem applySpringForce_same_position (p : WaterParticle ℝ) (v : Vector2 ℝ) :
    applySpringForce Real.sqrt p ⟨p.position, v⟩ = p := by
  simp [applySpringForce]

theorem applySurfaceTension_same_position (p : WaterParticle ℝ) (v : Vector2 ℝ) :
    applySurfaceTension Real.sqrt p ⟨p.position, v⟩ = p := by
  have hs : ¬ ((0 : ℝ) > springSeparation) := by norm_num [springSeparation]
  simp [applySurfaceTension, hs]

theorem applyRippleEffect_same_position (p : WaterParticle ℝ) :
    applyRippleEffect Real.sqrt p p.position = p := by
  simp [applyRippleEffect]

theorem applyWaveMotion_same_position (p : WaterParticle ℝ) :
    applyWaveMotion Real.sqrt Real.sin p p.position = p := by
  simp [applyWaveMotion]

/-- C6: for a particle `p` and a second particle at the same position (with any
velocity `v`), `applySpringForce` and `applySurfaceTension` leave both
particles as they were, and `applyRippleEffect` and `applyWaveMotion` centred
on the position of `p` leave `p` as it was; and on every input the three
dividing methods, run with the division by `distance` instrumented, return
their ordinary result, so no division by a zero `distance` is ever reached. -/
theorem zero_distance_guard (p : WaterParticle ℝ) (v : Vector2 ℝ) :
    applySpringForce Real.sqrt p ⟨p.position, v⟩ = p ∧
    applySpringForce Real.sqrt ⟨p.position, v⟩ p = ⟨p.position, v⟩ ∧
    applySurfaceTension Real.sqrt p ⟨p.position, v⟩ = p ∧
    applySurfaceTension Real.sqrt ⟨p.position, v⟩ p = ⟨p.position, v⟩ ∧
    applyRippleEffect Real.sqrt p p.position = p ∧
    applyWaveMotion Real.sqrt Real.sin p p.position = p ∧
    (∀ a b : WaterParticle ℝ,
      applySpringForceChecked Real.sqrt a b = some (applySpringForce Real.sqrt a b)) ∧
    (∀ a b : WaterParticle ℝ,
      applySurfaceTensionChecked Real.sqrt a b = some (applySurfaceTension Real.sqrt a b)) ∧
    (∀ (a : WaterParticle ℝ) (c : Vector2 ℝ),
      applyRippleEffectChecked Real.sqrt a c = some (applyRippleEffect Real.sqrt a c)) :=
  ⟨applySpringForce_same_position p v,
   applySpringForce_same_position ⟨p.position, v⟩ p.velocity,
   applySurfaceTension_same_position p v,
   applySurfaceTension_same_position ⟨p.position, v⟩ p.velocity,
   applyRippleEffect_same_position p,
   applyWaveMotion_same_position p,
   applySpringForceChecked_eq Real.sqrt,
   applySurfaceTensionChecked_eq Real.sqrt,
   applyRippleEffectChecked_eq Real.sqrt⟩

/-! ### The water level -/

theorem waterLevelIncrement_pos : (0 : α) < waterLevelIncrement := by
  norm_num [waterLevelIncrement]

theorem raiseWaterLevel_eq_min (w : α) :
    raiseWaterLevel w = min 1 (w + waterLevelIncrement) := by
  unfold raiseWaterLevel
  simp only []
  split_ifs with h
  · norm_num at h ⊢
    exact h.le
  · norm_num at h ⊢
    exact h

theorem raiseWaterLevel_iterate (N : Nat) (w : α) (hw : w ≤ 1) :
    raiseWaterLevel^[N] w = min 1 (w + N * waterLevelIncrement) := by
  induction N with
  | zero => simp [hw]
  | succ n ih =>
    rw [Function.iterate_succ_apply', ih, raiseWaterLevel_eq_min]
    have hinc : (0 : α) < waterLevelIncrement := waterLevelIncrement_pos
    push_cast
    rcases le_or_lt (w + n * waterLevelIncrement) 1 with h | h
    · rw [min_eq_right h]
      congr 1
      ring
    · rw [min_eq_left h.le, min_eq_left (by linarith), min_eq_left (by linarith)]

theorem applyEvent_click_waterLevel (sqrt sin : α → α) (s : SimState α) (x y : α) :
    (applyEvent sqrt sin s (Event.click x y)).waterLevel = raiseWaterLevel s.waterLevel :=
  rfl

theorem runEvents_clicks_waterLevel (sqrt sin : α → α) (clicks : List (α × α))
    (s : SimState α) :
    (runEvents sqrt sin s (clicks.map fun c => Event.click c.1 c.2)).waterLevel
      = raiseWaterLevel^[clicks.length] s.waterLevel := by
  induction clicks generalizing s with
  | nil => rfl
  | cons c cs ih =>
    simp only [List.map_cons, runEvents, List.foldl_cons, List.length_cons,
      Function.iterate_succ_apply]
    exact ih (applyEvent sqrt sin s (Event.click c.1 c.2))

/-- C7: from an initial water level in `[-1, 1]`, after `N` sequential
insertions (clicks at any coordinates, each raising the level by the increment
and capping it at `1`) the water level is `min 1 (initial + N * increment)`. -/
theorem waterLevel_after_insertions (sqrt sin : α → α) (s : SimState α) (N : Nat)
    (clicks : List (α × α)) (hN : clicks.length = N)
    (hlo : -1 ≤ s.waterLevel) (hhi : s.waterLevel ≤ 1) :
    (runEvents sqrt sin s (clicks.map fun c => Event.click c.1 c.2)).waterLevel
      = min 1 (s.waterLevel + N * waterLevelIncrement) := by
  have _ := hlo
  rw [runEvents_clicks_waterLevel, hN, raiseWaterLevel_iterate N s.waterLevel hhi]

/-- C7 at three insertions into the initial state: the level is
`min 1 (-1 + 3 * 0.001)`. -/
theorem waterLevel_after_insertions_witness :
    (runEvents Real.sqrt Real.sin (initialState : SimState ℝ)
        ([((0.2 : ℝ), (0.3 : ℝ)), (0, 0), (0.5, -0.5)].map fun c => Event.click c.1 c.2)).waterLevel
      = min 1 ((initialState : SimState ℝ).waterLevel + (3 : Nat) * waterLevelIncrement) :=
  waterLevel_after_insertions Real.sqrt Real.sin initialState 3 _ rfl
    (by norm_num [initialState]) (by norm_num [initialState])

theorem applyEvent_waterLevel_inv (sqrt sin : α → α) (s : SimState α) (e : Event α)
    (hlo : -1 ≤ s.waterLevel) (hhi : s.waterLevel ≤ 1) :
    -1 ≤ (applyEvent sqrt sin s e).waterLevel ∧ (applyEvent sqrt sin s e).waterLevel ≤ 1 ∧
    s.waterLevel ≤ (applyEvent sqrt sin s e).waterLevel := by
  cases e with
  | pairwise => exact ⟨hlo, hhi, le_refl _⟩
  | updateAll => exact ⟨hlo, hhi, le_refl _⟩
  | click x y =>
    rw [applyEvent_click_waterLevel, raiseWaterLevel_eq_min]
    have hinc : (0 : α) < waterLevelIncrement := waterLevelIncrement_pos
    refine ⟨le_min (by norm_num) (by linarith), min_le_left _ _, le_min hhi (by linarith)⟩

theorem runEvents_waterLevel_inv (sqrt sin : α → α) (events : List (Event α))
    (s : SimState α) (hlo : -1 ≤ s.waterLevel) (hhi : s.waterLevel ≤ 1) :
    -1 ≤ (runEvents sqrt sin s events).waterLevel ∧
    (runEvents sqrt sin s events).waterLevel ≤ 1 := by
  induction events generalizing s with
  | nil => exact ⟨hlo, hhi⟩
  | cons e es ih =>
    have h := applyEvent_waterLevel_inv sqrt sin s e hlo hhi
    exact ih (applyEvent sqrt sin s e) h.1 h.2.1

/-- C8: in every state reached from the initial state (no particles, water
level `-1`) by any sequence of insertions, pairwise passes and update passes,
the water level lies in `[-1, 1]`, and neither a further phase of any kind nor
a whole further frame (with or without a click) lowers it. -/
theorem waterLevel_bounded_monotone (sqrt sin : α → α) (events : List (Event α)) :
    -1 ≤ (runEvents sqrt sin initialState events).waterLevel ∧
    (runEvents sqrt sin initialState events).waterLevel ≤ 1 ∧
    (∀ e : Event α, (runEvents sqrt sin initialState events).waterLevel
      ≤ (applyEvent sqrt sin (runEvents sqrt sin initialState events) e).waterLevel) ∧
    (∀ click : Option (α × α), (runEvents sqrt sin initialState events).waterLevel
      ≤ (frame sqrt sin (runEvents sqrt sin initialState events) click).waterLevel) := by
  have h := runEvents_waterLevel_inv sqrt sin events (initialState : SimState α)
    (by norm_num [initialState]) (by norm_num [initialState])
  refine ⟨h.1, h.2, fun e => (applyEvent_waterLevel_inv sqrt sin _ e h.1 h.2).2.2, ?_⟩
  intro click
  cases click with
  | none => exact le_refl _
  | some c =>
    obtain ⟨x, y⟩ := c
    exact (applyEvent_waterLevel_inv sqrt sin _ (Event.click x y) h.1 h.2).2.2

/-! ### Insertion -/

theorem applyRippleEffect_position (sqrt : α → α) (self : WaterParticle α) (c : Vector2 α) :
    (applyRippleEffect sqrt self c).position = self.position := by
  unfold applyRippleEffect
  simp only []
  split_ifs <;> rfl

theorem applyWaveMotion_position (sqrt sin : α → α) (self : WaterParticle α) (c : Vector2 α) :
    (applyWaveMotion sqrt sin self c).position = self.position := by
  unfold applyWaveMotion
  simp only []
  split_ifs <;> rfl

theorem insertAndRipple_particles (sqrt sin : α → α) (x y : α) (s : SimState α) :
    (insertAndRipple sqrt sin x y s).waterParticles =
      s.waterParticles.map (fun p =>
          applyWaveMotion sqrt sin (applyRippleEffect sqrt p ⟨x, y⟩) ⟨x, y⟩) ++
        [applyWaveMotion sqrt sin (applyRippleEffect sqrt (WaterParticle.new x y) ⟨x, y⟩) ⟨x, y⟩] := by
  simp [insertAndRipple]

theorem insertAndRipple_new_particle (x y : ℝ) :
    applyWaveMotion Real.sqrt Real.sin
        (applyRippleEffect Real.sqrt (WaterParticle.new x y) ⟨x, y⟩) ⟨x, y⟩
      = { position := ⟨x, y⟩, velocity := ⟨0, 0⟩ } := by
  have h1 := applyRippleEffect_same_position (WaterParticle.new x y)
  have h2 := applyWaveMotion_same_position (WaterParticle.new x y)
  simp only [WaterParticle.new] at h1 h2 ⊢
  rw [h1, h2]

/-- C9: after the whole click handling at `(x, y)` (append, raise the water
level, ripple over all particles, wave over all particles) the collection has
exactly one more particle, its last element is the new particle with position
`(x, y)` and velocity `(0, 0)`, and the particles before it have, in order, the
positions the collection had before the click; the water level is the raised
one.  In particular a click at `(0.2, 0.3)` in the initial state gives the one
particle at `(0.2, 0.3)` at rest and water level `-1 + increment`. -/
theorem insertAndRipple_appends (s : SimState ℝ) (x y : ℝ) :
    (insertAndRipple Real.sqrt Real.sin x y s).waterParticles.length
      = s.waterParticles.length + 1 ∧
    (insertAndRipple Real.sqrt Real.sin x y s).waterParticles.getLast?
      = some { position := ⟨x, y⟩, velocity := ⟨0, 0⟩ } ∧
    (insertAndRipple Real.sqrt Real.sin x y s).waterParticles.dropLast.map
        WaterParticle.position
      = s.waterParticles.map WaterParticle.position ∧
    (insertAndRipple Real.sqrt Real.sin x y s).waterLevel
      = min 1 (s.waterLevel + waterLevelIncrement) ∧
    (insertAndRipple Real.sqrt Real.sin 0.2 0.3 initialState).waterParticles
      = [{ position := ⟨0.2, 0.3⟩, velocity := ⟨0, 0⟩ }] ∧
    (insertAndRipple Real.sqrt Real.sin 0.2 0.3 initialState).waterLevel
      = -1.0 + waterLevelIncrement := by
  have hnew := insertAndRipple_new_particle
  refine ⟨?_, ?_, ?_, ?_, ?_, ?_⟩
  · rw [insertAndRipple_particles]
    simp
  · rw [insertAndRipple_particles, hnew]
    simp
  · rw [insertAndRipple_particles]
    simp [Function.comp_def, applyRippleEffect_position, applyWaveMotion_position]
  · exact raiseWaterLevel_eq_min s.waterLevel
  · rw [insertAndRipple_particles, hnew]
    simp [initialState]
  · show raiseWaterLevel (initialState : SimState ℝ).waterLevel = _
    rw [raiseWaterLevel_eq_min]
    norm_num [initialState, waterLevelIncrement]

/-! ### The pairwise loop nest -/

theorem forPairs_eq_foldl {σ : Type} (n : Nat) (body : σ → Nat → Nat → σ) (init : σ) :
    forPairs n body init =
      ((List.range n).flatMap fun i =>
          (List.range' (i + 1) (n - (i + 1))).map fun j => (i, j)).foldl
        (fun s ij => body s ij.1 ij.2) init := by
  unfold forPairs
  generalize List.range n = is
  induction is generalizing init with
  | nil => rfl
  | cons i is ih =>
    simp only [List.foldl_cons, List.flatMap_cons, List.foldl_append, List.foldl_map]
    exact ih _

theorem foldl_snoc_eq {β : Type} (l acc : List β) :
    l.foldl (fun visited b => visited ++ [b]) acc = acc ++ l := by
  induction l generalizing acc with
  | nil => simp
  | cons b l ih => simp [ih]

theorem visitedPairs_eq (n : Nat) :
    visitedPairs n =
      (List.range n).flatMap fun i =>
        (List.range' (i + 1) (n - (i + 1))).map fun j => (i, j) := by
  unfold visitedPairs
  rw [forPairs_eq_foldl]
  exact (foldl_snoc_eq _ []).trans (List.nil_append _)

theorem mem_visitedPairs (n i j : Nat) : (i, j) ∈ visitedPairs n ↔ i < j ∧ j < n := by
  rw [visitedPairs_eq]
  simp only [List.mem_flatMap, List.mem_range, List.mem_map, List.mem_range', Prod.mk.injEq]
  constructor
  · rintro ⟨a, ha, b, ⟨c, hc, rfl⟩, rfl, rfl⟩
    omega
  · rintro ⟨hij, hjn⟩
    exact ⟨i, by omega, j, ⟨j - (i + 1), by omega, by omega⟩, rfl, rfl⟩

theorem visitedPairs_nodup (n : Nat) : (visitedPairs n).Nodup := by
  rw [visitedPairs_eq, List.nodup_flatMap]
  refine ⟨fun i _ => ?_, ?_⟩
  · exact (List.nodup_range' _ _).map (fun a b h => (Prod.mk.inj h).2)
  · refine (List.nodup_range n).imp ?_
    intro a b hab
    simp only [Function.onFun, List.Disjoint, List.mem_map]
    rintro ⟨x, y⟩ ⟨_, _, h1⟩ ⟨_, _, h2⟩
    exact hab ((Prod.mk.inj h1).1.trans (Prod.mk.inj h2).1.symm)

theorem visitedPairs_length (n : Nat) : (visitedPairs n).length = n * (n - 1) / 2 := by
  rw [visitedPairs_eq, List.length_flatMap]
  have hlen : (List.length ∘ fun i => (List.range' (i + 1) (n - (i + 1))).map fun j => (i, j))
      = fun i => n - (i + 1) := by
    funext i
    simp
  rw [hlen]
  have h : ((List.range n).map fun i => n - (i + 1)).sum
      = ∑ i ∈ Finset.range n, (n - 1 - i) := by
    rw [Finset.sum_eq_multiset_sum]
    simp only [Finset.range_val, Multiset.range, Multiset.map_coe, Multiset.sum_coe]
    congr 1
    apply List.map_congr_left
    intro i _
    omega
  rw [h, Finset.sum_range_reflect (fun i => i) n, Finset.sum_range_id]

/-- C10: over a collection of `n` particles the loop nest hands its body the
index pairs `(i, j)` with `i < j < n`, each exactly once and no other pair, so
the body is evaluated `n * (n - 1) / 2` times; the pairwise pass is that loop
nest run with the four force applications as body, and on the empty and on a
one-particle collection it changes nothing. -/
theorem pairwise_pass_visits_each_pair_once (n : Nat) :
    (∀ i j : Nat, (i, j) ∈ visitedPairs n ↔ i < j ∧ j < n) ∧
    (visitedPairs n).Nodup ∧
    (visitedPairs n).length = n * (n - 1) / 2 ∧
    forPairs n (fun count _ _ => count + 1) 0 = n * (n - 1) / 2 ∧
    (∀ (sqrt : ℝ → ℝ) (ps : List (WaterParticle ℝ)), ps.length = n →
      applyPairwiseForces sqrt ps
        = (visitedPairs n).foldl (fun ps ij => pairBody sqrt ps ij.1 ij.2) ps) ∧
    (∀ sqrt : ℝ → ℝ, applyPairwiseForces sqrt [] = []) ∧
    (∀ (sqrt : ℝ → ℝ) (p : WaterParticle ℝ), applyPairwiseForces sqrt [p] = [p]) := by
  refine ⟨mem_visitedPairs n, visitedPairs_nodup n, visitedPairs_length n, ?_, ?_, ?_, ?_⟩
  · rw [forPairs_eq_foldl, ← visitedPairs_eq, ← visitedPairs_length]
    generalize visitedPairs n = l
    have h : ∀ (l : List (Nat × Nat)) (c : Nat),
        l.foldl (fun count _ => count + 1) c = c + l.length := by
      intro l
      induction l with
      | nil => intro c; rfl
      | cons a l ih => intro c; simp only [List.foldl_cons, List.length_cons, ih]; omega
    simpa using h l 0
  · intro sqrt ps hlen
    rw [applyPairwiseForces, forPairs_eq_foldl, hlen, ← visitedPairs_eq]
  · intro sqrt
    rfl
  · intro sqrt p
    rfl

/-! ### Frame conditions of the force methods -/

theorem applySurfaceTension_position (sqrt : α → α) (self other : WaterParticle α) :
    (applySurfaceTension sqrt self other).position = self.position := by
  unfold applySurfaceTension
  simp only []
  split_ifs <;> rfl

theorem applyAt_getElem?_of_ne (f : WaterParticle α → WaterParticle α → WaterParticle α)
    (ps : List (WaterParticle α)) (i j l : Nat) (h : l ≠ i) :
    (applyAt f ps i j)[l]? = ps[l]? := by
  unfold applyAt
  split
  · rw [List.getElem?_set_ne (Ne.symm h)]
  · rfl

theorem applyAt_map_position (f : WaterParticle α → WaterParticle α → WaterParticle α)
    (hf : ∀ a b, (f a b).position = a.position) (ps : List (WaterParticle α)) (i j : Nat) :
    (applyAt f ps i j).map WaterParticle.position = ps.map WaterParticle.position := by
  unfold applyAt
  split
  · rename_i a b ha hb
    apply List.ext_getElem?
    intro l
    rw [List.map_set, List.getElem?_set]
    split_ifs with h1 h2
    · subst h1
      simp [ha, hf]
    · subst h1
      simp only [List.length_map] at h2
      rw [List.getElem?_eq_none (by simp; omega)]
    · rfl
  · rfl

theorem pairBody_map_position (sqrt : α → α) (ps : List (WaterParticle α)) (i j : Nat) :
    (pairBody sqrt ps i j).map WaterParticle.position = ps.map WaterParticle.position := by
  simp only [pairBody]
  rw [applyAt_map_position _ (applySurfaceTension_position sqrt),
    applyAt_map_position _ (applySurfaceTension_position sqrt),
    applyAt_map_position _ (applySpringForce_position sqrt),
    applyAt_map_position _ (applySpringForce_position sqrt)]

theorem applyPairwiseForces_map_position (sqrt : α → α) (ps : List (WaterParticle α)) :
    (applyPairwiseForces sqrt ps).map WaterParticle.position
      = ps.map WaterParticle.position := by
  rw [applyPairwiseForces, forPairs_eq_foldl]
  generalize ((List.range ps.length).flatMap fun i =>
    (List.range' (i + 1) (ps.length - (i + 1))).map fun j => (i, j)) = L
  induction L generalizing ps with
  | nil => rfl
  | cons ij L ih =>
    rw [List.foldl_cons, ih, pairBody_map_position]

/-- C12: each of `applySpringForce`, `applySurfaceTension`, `applyRippleEffect`
and `applyWaveMotion` returns the receiving particle with its position
unchanged; a statement `waterParticles[i].f(waterParticles[j])` changes no
element of the collection other than element `i` (so the other particle stays
as it was); and the pairwise pass leaves the position of every particle
unchanged. -/
theorem force_methods_keep_position (sqrt sin : α → α) (self other : WaterParticle α)
    (center : Vector2 α) (ps : List (WaterParticle α)) :
    (applySpringForce sqrt self other).position = self.position ∧
    (applySurfaceTension sqrt self other).position = self.position ∧
    (applyRippleEffect sqrt self center).position = self.position ∧
    (applyWaveMotion sqrt sin self center).position = self.position ∧
    (∀ (f : WaterParticle α → WaterParticle α → WaterParticle α) (i j l : Nat), l ≠ i →
      (applyAt f ps i j)[l]? = ps[l]?) ∧
    (applyPairwiseForces sqrt ps).length = ps.length ∧
    (applyPairwiseForces sqrt ps).map WaterParticle.position
      = ps.map WaterParticle.position := by
  refine ⟨applySpringForce_position sqrt self other,
    applySurfaceTension_position sqrt self other,
    applyRippleEffect_position sqrt self center,
    applyWaveMotion_position sqrt sin self center,
    fun f i j l h => applyAt_getElem?_of_ne f ps i j l h, ?_,
    applyPairwiseForces_map_position sqrt ps⟩
  have h := congrArg List.length (applyPairwiseForces_map_position sqrt ps)
  simpa using h

/-! ### The force laws -/

theorem distanceTo_mul_self (a b : Vector2 ℝ) :
    distanceTo Real.sqrt a b * distanceTo Real.sqrt a b
      = (b.x - a.x) * (b.x - a.x) + (b.y - a.y) * (b.y - a.y) := by
  simp only [distanceTo]
  exact Real.mul_self_sqrt (add_nonneg (mul_self_nonneg _) (mul_self_nonneg _))

theorem distanceTo_nonneg (a b : Vector2 ℝ) : 0 ≤ distanceTo Real.sqrt a b := by
  simp only [distanceTo]
  exact Real.sqrt_nonneg _

theorem unit_direction (a b : Vector2 ℝ) (h : 0 < distanceTo Real.sqrt a b) :
    ((b.x - a.x) / distanceTo Real.sqrt a b) ^ 2
      + ((b.y - a.y) / distanceTo Real.sqrt a b) ^ 2 = 1 := by
  have hd := distanceTo_mul_self a b
  have hne : distanceTo Real.sqrt a b ≠ 0 := ne_of_gt h
  field_simp
  nlinarith [hd]

theorem distanceTo_on_axis (x : ℝ) (hx : 0 ≤ x) :
    distanceTo Real.sqrt (⟨0, 0⟩ : Vector2 ℝ) ⟨x, 0⟩ = x := by
  have h : (x - 0) * (x - 0) + ((0 : ℝ) - 0) * (0 - 0) = x ^ 2 := by ring
  simp only [distanceTo]
  rw [h, Real.sqrt_sq hx]

theorem applySurfaceTension_velocity_of_band (sqrt : α → α) (self other : WaterParticle α)
    (h0 : springSeparation < distanceTo sqrt self.position other.position)
    (h1 : distanceTo sqrt self.position other.position < 2 * springSeparation) :
    (applySurfaceTension sqrt self other).velocity =
      ⟨self.velocity.x
          + tensionFactor * (2 * springSeparation - distanceTo sqrt self.position other.position)
            * ((other.position.x - self.position.x)
                / distanceTo sqrt self.position other.position),
       self.velocity.y
          + tensionFactor * (2 * springSeparation - distanceTo sqrt self.position other.position)
            * ((other.position.y - self.position.y)
                / distanceTo sqrt self.position other.position)⟩ := by
  have hg : distanceTo sqrt self.position other.position > springSeparation ∧
      distanceTo sqrt self.position other.position < 2 * springSeparation := ⟨h0, h1⟩
  simp only [distanceTo] at hg ⊢
  simp only [applySurfaceTension, if_pos hg, Vector2.mk.injEq]
  constructor <;> norm_num

theorem applySurfaceTension_of_not_band (sqrt : α → α) (self other : WaterParticle α)
    (h : ¬ (springSeparation < distanceTo sqrt self.position other.position ∧
      distanceTo sqrt self.position other.position < 2 * springSeparation)) :
    applySurfaceTension sqrt self other = self := by
  simp only [distanceTo] at h
  simp only [applySurfaceTension, gt_iff_lt, if_neg h]

/-- C14: with `d` the distance from the receiving particle to the other one,
when `springSeparation < d < 2 * springSeparation` the method
`applySurfaceTension` adds to the velocity exactly
`tensionFactor * (2 * springSeparation - d)` times `(other - self) / d`, where
that coefficient is positive and `(other - self) / d` has length one (the pull
is toward the other particle); for every `d` outside the open band the particle
is returned unchanged. -/
theorem surface_tension_law (self other : WaterParticle ℝ) :
    (springSeparation < distanceTo Real.sqrt self.position other.position ∧
      distanceTo Real.sqrt self.position other.position < 2 * springSeparation →
      (applySurfaceTension Real.sqrt self other).velocity.x - self.velocity.x
        = tensionFactor
            * (2 * springSeparation - distanceTo Real.sqrt self.position other.position)
            * ((other.position.x - self.position.x)
                / distanceTo Real.sqrt self.position other.position) ∧
      (applySurfaceTension Real.sqrt self other).velocity.y - self.velocity.y
        = tensionFactor
            * (2 * springSeparation - distanceTo Real.sqrt self.position other.position)
            * ((other.position.y - self.position.y)
                / distanceTo Real.sqrt self.position other.position) ∧
      0 < tensionFactor
            * (2 * springSeparation - distanceTo Real.sqrt self.position other.position) ∧
      ((other.position.x - self.position.x)
          / distanceTo Real.sqrt self.position other.position) ^ 2
        + ((other.position.y - self.position.y)
          / distanceTo Real.sqrt self.position other.position) ^ 2 = 1) ∧
    (¬ (springSeparation < distanceTo Real.sqrt self.position other.position ∧
      distanceTo Real.sqrt self.position other.position < 2 * springSeparation) →
      applySurfaceTension Real.sqrt self other = self) := by
  refine ⟨fun h => ?_, applySurfaceTension_of_not_band Real.sqrt self other⟩
  have hv := applySurfaceTension_velocity_of_band Real.sqrt self other h.1 h.2
  have hs : (0 : ℝ) < springSeparation := by norm_num [springSeparation]
  have ht : (0 : ℝ) < tensionFactor := by norm_num [tensionFactor]
  refine ⟨by rw [hv]; ring, by rw [hv]; ring, mul_pos ht (by linarith [h.2]),
    unit_direction _ _ (lt_trans hs h.1)⟩

/-- C14 at the particles `(0, 0)` and `(0.05, 0)`, both at rest: the distance
`0.05` lies in the band `(0.0375, 0.075)` and the receiver gains
`0.007 * (0.075 - 0.05) = 0.000175` along `+x`. -/
theorem surface_tension_law_witness :
    (applySurfaceTension Real.sqrt (⟨⟨0, 0⟩, ⟨0, 0⟩⟩ : WaterParticle ℝ)
        ⟨⟨0.05, 0⟩, ⟨0, 0⟩⟩).velocity.x = 0.000175 ∧
    (applySurfaceTension Real.sqrt (⟨⟨0, 0⟩, ⟨0, 0⟩⟩ : WaterParticle ℝ)
        ⟨⟨0.05, 0⟩, ⟨0, 0⟩⟩).velocity.y = 0 := by
  have hd : distanceTo Real.sqrt (⟨0, 0⟩ : Vector2 ℝ) ⟨0.05, 0⟩ = 0.05 :=
    distanceTo_on_axis 0.05 (by norm_num)
  have h := (surface_tension_law ⟨⟨0, 0⟩, ⟨0, 0⟩⟩ ⟨⟨0.05, 0⟩, ⟨0, 0⟩⟩).1
    ⟨by rw [hd]; norm_num [springSeparation], by rw [hd]; norm_num [springSeparation]⟩
  simp only [hd] at h
  constructor
  · have h1 := h.1
    norm_num [tensionFactor, springSeparation] at h1
    linarith
  · have h2 := h.2.1
    norm_num at h2
    linarith

theorem applyRippleEffect_velocity_of_range (sqrt : α → α) (self : WaterParticle α)
    (c : Vector2 α) (h0 : 0 < distanceTo sqrt self.position c)
    (h1 : distanceTo sqrt self.position c < 0.1) :
    (applyRippleEffect sqrt self c).velocity =
      ⟨self.velocity.x - rippleFactor * (0.1 - distanceTo sqrt self.position c)
          * ((c.x - self.position.x) / distanceTo sqrt self.position c),
       self.velocity.y - rippleFactor * (0.1 - distanceTo sqrt self.position c)
          * ((c.y - self.position.y) / distanceTo sqrt self.position c)⟩ := by
  have hg : distanceTo sqrt self.position c < 0.1 ∧ distanceTo sqrt self.position c > 0.0 :=
    ⟨h1, by norm_num; exact h0⟩
  simp only [distanceTo] at hg ⊢
  simp only [applyRippleEffect, if_pos hg, Vector2.mk.injEq]
  constructor <;> norm_num

theorem applyRippleEffect_of_not_range (sqrt : α → α) (self : WaterParticle α)
    (c : Vector2 α)
    (h : distanceTo sqrt self.position c ≥ 0.1 ∨ distanceTo sqrt self.position c = 0) :
    applyRippleEffect sqrt self c = self := by
  have hg : ¬ (distanceTo sqrt self.position c < 0.1 ∧
      distanceTo sqrt self.position c > 0.0) := by
    rintro ⟨h1, h2⟩
    norm_num at h2
    rcases h with h | h
    · exact absurd h1 (not_lt.mpr h)
    · exact absurd h (ne_of_gt h2)
  simp only [distanceTo] at hg
  simp only [applyRippleEffect, if_neg hg]

theorem applyWaveMotion_velocity_of_range (sqrt sin : α → α) (self : WaterParticle α)
    (c : Vector2 α) (h0 : 0 < distanceTo sqrt self.position c)
    (h1 : distanceTo sqrt self.position c < 0.3) :
    (applyWaveMotion sqrt sin self c).velocity =
      ⟨self.velocity.x + waveFactor * sin (distanceTo sqrt self.position c * 10.0)
          * (c.x - self.position.x),
       self.velocity.y + waveFactor * sin (distanceTo sqrt self.position c * 10.0)
          * (c.y - self.position.y)⟩ := by
  have hg : distanceTo sqrt self.position c < 0.3 ∧ distanceTo sqrt self.position c > 0.0 :=
    ⟨h1, by norm_num; exact h0⟩
  simp only [distanceTo] at hg ⊢
  simp only [applyWaveMotion, if_pos hg]

theorem applyWaveMotion_of_not_range (sqrt sin : α → α) (self : WaterParticle α)
    (c : Vector2 α)
    (h : distanceTo sqrt self.position c ≥ 0.3 ∨ distanceTo sqrt self.position c = 0) :
    applyWaveMotion sqrt sin self c = self := by
  have hg : ¬ (distanceTo sqrt self.position c < 0.3 ∧
      distanceTo sqrt self.position c > 0.0) := by
    rintro ⟨h1, h2⟩
    norm_num at h2
    rcases h with h | h
    · exact absurd h1 (not_lt.mpr h)
    · exact absurd h (ne_of_gt h2)
  simp only [distanceTo] at hg
  simp only [applyWaveMotion, if_neg hg]

/-- C16: with `d` the distance between the particle and the ripple center, when
`0 < d < 0.1` the method `applyRippleEffect` adds to the velocity exactly
`rippleFactor * (0.1 - d)` times `(position - center) / d`, a vector of length
one pointing from the center to the particle, with a positive coefficient; when
`d ≥ 0.1` or `d = 0` the particle is returned unchanged. -/
theorem ripple_law (self : WaterParticle ℝ) (center : Vector2 ℝ) :
    (0 < distanceTo Real.sqrt self.position center ∧
      distanceTo Real.sqrt self.position center < 0.1 →
      (applyRippleEffect Real.sqrt self center).velocity.x - self.velocity.x
        = rippleFactor * (0.1 - distanceTo Real.sqrt self.position center)
            * ((self.position.x - center.x) / distanceTo Real.sqrt self.position center) ∧
      (applyRippleEffect Real.sqrt self center).velocity.y - self.velocity.y
        = rippleFactor * (0.1 - distanceTo Real.sqrt self.position center)
            * ((self.position.y - center.y) / distanceTo Real.sqrt self.position center) ∧
      0 < rippleFactor * (0.1 - distanceTo Real.sqrt self.position center) ∧
      ((self.position.x - center.x) / distanceTo Real.sqrt self.position center) ^ 2
        + ((self.position.y - center.y) / distanceTo Real.sqrt self.position center) ^ 2
        = 1) ∧
    (distanceTo Real.sqrt self.position center ≥ 0.1 ∨
      distanceTo Real.sqrt self.position center = 0 →
      applyRippleEffect Real.sqrt self center = self) := by
  refine ⟨fun h => ?_, applyRippleEffect_of_not_range Real.sqrt self center⟩
  have hv := applyRippleEffect_velocity_of_range Real.sqrt self center h.1 h.2
  have hr : (0 : ℝ) < rippleFactor := by norm_num [rippleFactor]
  have hu := unit_direction self.position center h.1
  refine ⟨by rw [hv]; ring, by rw [hv]; ring, mul_pos hr (by linarith [h.2]), ?_⟩
  rw [← hu]
  ring

/-- C16 at the particle `(0, 0)` at rest with the ripple centred at `(0.05, 0)`:
the distance is `0.05` and the particle gains `0.001 * (0.1 - 0.05) = 0.00005`
along `-x`, away from the center. -/
theorem ripple_law_witness :
    (applyRippleEffect Real.sqrt (⟨⟨0, 0⟩, ⟨0, 0⟩⟩ : WaterParticle ℝ) ⟨0.05, 0⟩).velocity.x
      = -0.00005 ∧
    (applyRippleEffect Real.sqrt (⟨⟨0, 0⟩, ⟨0, 0⟩⟩ : WaterParticle ℝ) ⟨0.05, 0⟩).velocity.y
      = 0 := by
  have hd : distanceTo Real.sqrt (⟨0, 0⟩ : Vector2 ℝ) ⟨0.05, 0⟩ = 0.05 :=
    distanceTo_on_axis 0.05 (by norm_num)
  have h := (ripple_law ⟨⟨0, 0⟩, ⟨0, 0⟩⟩ ⟨0.05, 0⟩).1
    ⟨by rw [hd]; norm_num, by rw [hd]; norm_num⟩
  simp only [hd] at h
  constructor
  · have h1 := h.1
    norm_num [rippleFactor] at h1
    linarith
  · have h2 := h.2.1
    norm_num at h2
    linarith

/-- C17: with `d` the distance between the particle and the wave source, when
`0 < d < 0.3` the method `applyWaveMotion` adds to the velocity exactly
`waveFactor * sin (10 * d)` times the raw vector `source - position`, a change
of length `waveFactor * |sin (10 * d)| * d`; when `d ≥ 0.3` or `d = 0` the
particle is returned unchanged. -/
theorem wave_law (self : WaterParticle ℝ) (source : Vector2 ℝ) :
    (0 < distanceTo Real.sqrt self.position source ∧
      distanceTo Real.sqrt self.position source < 0.3 →
      (applyWaveMotion Real.sqrt Real.sin self source).velocity.x - self.velocity.x
        = waveFactor * Real.sin (10 * distanceTo Real.sqrt self.position source)
            * (source.x - self.position.x) ∧
      (applyWaveMotion Real.sqrt Real.sin self source).velocity.y - self.velocity.y
        = waveFactor * Real.sin (10 * distanceTo Real.sqrt self.position source)
            * (source.y - self.position.y) ∧
      Real.sqrt
          (((applyWaveMotion Real.sqrt Real.sin self source).velocity.x - self.velocity.x) ^ 2
            + ((applyWaveMotion Real.sqrt Real.sin self source).velocity.y
                - self.velocity.y) ^ 2)
        = waveFactor * |Real.sin (10 * distanceTo Real.sqrt self.position source)|
            * distanceTo Real.sqrt self.position source) ∧
    (distanceTo Real.sqrt self.position source ≥ 0.3 ∨
      distanceTo Real.sqrt self.position source = 0 →
      applyWaveMotion Real.sqrt Real.sin self source = self) := by
  refine ⟨fun h => ?_, applyWaveMotion_of_not_range Real.sqrt Real.sin self source⟩
  have hv := applyWaveMotion_velocity_of_range Real.sqrt Real.sin self source h.1 h.2
  have h10 : distanceTo Real.sqrt self.position source * 10.0
      = 10 * distanceTo Real.sqrt self.position source := by norm_num [mul_comm]
  rw [h10] at hv
  have hw : (0 : ℝ) < waveFactor := by norm_num [waveFactor]
  have hx : (applyWaveMotion Real.sqrt Real.sin self source).velocity.x - self.velocity.x
      = waveFactor * Real.sin (10 * distanceTo Real.sqrt self.position source)
          * (source.x - self.position.x) := by rw [hv]; ring
  have hy : (applyWaveMotion Real.sqrt Real.sin self source).velocity.y - self.velocity.y
      = waveFactor * Real.sin (10 * distanceTo Real.sqrt self.position source)
          * (source.y - self.position.y) := by rw [hv]; ring
  refine ⟨hx, hy, ?_⟩
  rw [hx, hy]
  have hd := distanceTo_mul_self self.position source
  have hsq : (waveFactor * Real.sin (10 * distanceTo Real.sqrt self.position source)
        * (source.x - self.position.x)) ^ 2
      + (waveFactor * Real.sin (10 * distanceTo Real.sqrt self.position source)
        * (source.y - self.position.y)) ^ 2
      = (waveFactor * |Real.sin (10 * distanceTo Real.sqrt self.position source)|
          * distanceTo Real.sqrt self.position source) ^ 2 := by
    have habs := sq_abs (Real.sin (10 * distanceTo Real.sqrt self.position source))
    calc _ = waveFactor ^ 2 * Real.sin (10 * distanceTo Real.sqrt self.position source) ^ 2
            * ((source.x - self.position.x) * (source.x - self.position.x)
              + (source.y - self.position.y) * (source.y - self.position.y)) := by ring
      _ = waveFactor ^ 2 * |Real.sin (10 * distanceTo Real.sqrt self.position source)| ^ 2
            * (distanceTo Real.sqrt self.position source
              * distanceTo Real.sqrt self.position source) := by rw [habs, hd]
      _ = _ := by ring
  rw [hsq]
  exact Real.sqrt_sq (mul_nonneg (mul_nonneg hw.le (abs_nonneg _)) h.1.le)

/-- C17 at the particle `(0, 0)` at rest with the wave source at `(0.1, 0)`: the
distance is `0.1` and the particle gains `0.01 * sin 1 * 0.1` along `+x`. -/
theorem wave_law_witness :
    (applyWaveMotion Real.sqrt Real.sin (⟨⟨0, 0⟩, ⟨0, 0⟩⟩ : WaterParticle ℝ)
        ⟨0.1, 0⟩).velocity.x = 0.001 * Real.sin 1 ∧
    (applyWaveMotion Real.sqrt Real.sin (⟨⟨0, 0⟩, ⟨0, 0⟩⟩ : WaterParticle ℝ)
        ⟨0.1, 0⟩).velocity.y = 0 := by
  have hd : distanceTo Real.sqrt (⟨0, 0⟩ : Vector2 ℝ) ⟨0.1, 0⟩ = 0.1 :=
    distanceTo_on_axis 0.1 (by norm_num)
  have h := (wave_law ⟨⟨0, 0⟩, ⟨0, 0⟩⟩ ⟨0.1, 0⟩).1
    ⟨by rw [hd]; norm_num, by rw [hd]; norm_num⟩
  simp only [hd] at h
  have e : (10 : ℝ) * 0.1 = 1 := by norm_num
  rw [e] at h
  constructor
  · have h1 := h.1
    norm_num [waveFactor] at h1
    linarith
  · have h2 := h.2.1
    norm_num at h2
    linarith

/-- C19, amended: in exact real arithmetic, with `d` the distance between the
particle and the wave source, when `0 < d < 0.3` the velocity change made by
`applyWaveMotion` has a strictly positive dot product with `source - position`,
and `sin (10 * d) > 0`. -/
theorem wave_pulls_toward_source (self : WaterParticle ℝ) (source : Vector2 ℝ)
    (h0 : 0 < distanceTo Real.sqrt self.position source)
    (h1 : distanceTo Real.sqrt self.position source < 0.3) :
    0 < Real.sin (10 * distanceTo Real.sqrt self.position source) ∧
    0 < ((applyWaveMotion Real.sqrt Real.sin self source).velocity.x - self.velocity.x)
          * (source.x - self.position.x)
        + ((applyWaveMotion Real.sqrt Real.sin self source).velocity.y - self.velocity.y)
          * (source.y - self.position.y) := by
  have hv := applyWaveMotion_velocity_of_range Real.sqrt Real.sin self source h0 h1
  have h10 : distanceTo Real.sqrt self.position source * 10.0
      = 10 * distanceTo Real.sqrt self.position source := by norm_num [mul_comm]
  rw [h10] at hv
  have hw : (0 : ℝ) < waveFactor := by norm_num [waveFactor]
  have hsin : 0 < Real.sin (10 * distanceTo Real.sqrt self.position source) := by
    apply Real.sin_pos_of_pos_of_lt_pi (by linarith)
    have hpi := Real.pi_gt_three
    norm_num at h1
    linarith
  have hd := distanceTo_mul_self self.position source
  have hpos : 0 < (source.x - self.position.x) * (source.x - self.position.x)
      + (source.y - self.position.y) * (source.y - self.position.y) := by
    rw [← hd]
    exact mul_pos h0 h0
  refine ⟨hsin, ?_⟩
  have e : ((applyWaveMotion Real.sqrt Real.sin self source).velocity.x - self.velocity.x)
          * (source.x - self.position.x)
        + ((applyWaveMotion Real.sqrt Real.sin self source).velocity.y - self.velocity.y)
          * (source.y - self.position.y)
      = waveFactor * Real.sin (10 * distanceTo Real.sqrt self.position source)
          * ((source.x - self.position.x) * (source.x - self.position.x)
            + (source.y - self.position.y) * (source.y - self.position.y)) := by
    rw [hv]
    ring
  rw [e]
  exact mul_pos (mul_pos hw hsin) hpos

/-- C19, amended, at the particle `(0, 0)` at rest with the wave source at
`(0.1, 0)`. -/
theorem wave_pulls_toward_source_witness :
    0 < Real.sin (10 * distanceTo Real.sqrt (⟨0, 0⟩ : Vector2 ℝ) ⟨0.1, 0⟩) ∧
    0 < ((applyWaveMotion Real.sqrt Real.sin (⟨⟨0, 0⟩, ⟨0, 0⟩⟩ : WaterParticle ℝ)
            ⟨0.1, 0⟩).velocity.x - 0) * (0.1 - 0)
        + ((applyWaveMotion Real.sqrt Real.sin (⟨⟨0, 0⟩, ⟨0, 0⟩⟩ : WaterParticle ℝ)
            ⟨0.1, 0⟩).velocity.y - 0) * (0 - 0) :=
  wave_pulls_toward_source ⟨⟨0, 0⟩, ⟨0, 0⟩⟩ ⟨0.1, 0⟩
    (by rw [show (⟨⟨0, 0⟩, ⟨0, 0⟩⟩ : WaterParticle ℝ).position = ⟨0, 0⟩ from rfl,
          distanceTo_on_axis 0.1 (by norm_num)]; norm_num)
    (by rw [show (⟨⟨0, 0⟩, ⟨0, 0⟩⟩ : WaterParticle ℝ).position = ⟨0, 0⟩ from rfl,
          distanceTo_on_axis 0.1 (by norm_num)]; norm_num)

/-! ### The sign of the spring force -/

theorem spring_force_negative_of_range (A B : WaterParticle ℝ)
    (h0 : 0 < distanceTo Real.sqrt A.position B.position)
    (h1 : distanceTo Real.sqrt A.position B.position < springSeparation) :
    k * (distanceTo Real.sqrt A.position B.position - springSeparation) < 0 ∧
    ((applySpringForce Real.sqrt A B).velocity.x - A.velocity.x)
        * (B.position.x - A.position.x)
      + ((applySpringForce Real.sqrt A B).velocity.y - A.velocity.y)
        * (B.position.y - A.position.y) < 0 := by
  have hk : (0 : ℝ) < k := by norm_num [k]
  have hsp : (0 : ℝ) < spread := by norm_num [spread]
  have hf : k * (distanceTo Real.sqrt A.position B.position - springSeparation) < 0 :=
    mul_neg_of_pos_of_neg hk (by linarith)
  refine ⟨hf, ?_⟩
  have hv := applySpringForce_velocity_of_range Real.sqrt A B h0 h1
  have hd := distanceTo_mul_self A.position B.position
  have hc : k * (distanceTo Real.sqrt A.position B.position - springSeparation) * spread
      / distanceTo Real.sqrt A.position B.position < 0 :=
    div_neg_of_neg_of_pos (mul_neg_of_neg_of_pos hf hsp) h0
  have e : ((applySpringForce Real.sqrt A B).velocity.x - A.velocity.x)
        * (B.position.x - A.position.x)
      + ((applySpringForce Real.sqrt A B).velocity.y - A.velocity.y)
        * (B.position.y - A.position.y)
      = k * (distanceTo Real.sqrt A.position B.position - springSeparation) * spread
          / distanceTo Real.sqrt A.position B.position
        * (distanceTo Real.sqrt A.position B.position
            * distanceTo Real.sqrt A.position B.position) := by
    rw [hv, hd]
    ring
  rw [e]
  exact mul_neg_of_neg_of_pos hc (mul_pos h0 h0)

/-- C13 as stated fails: no pair of particles that meets the trigger condition
of `applySpringForce` (`distance < springSeparation && distance > 0`) has a
positive `f = k * (distance - springSeparation)`, and none is moved toward the
other particle; for instance the particle at `(0, 0)` with the other one at
`(0.03, 0)` gains `-9/16000000` along `x`, away from the other particle. -/
theorem spring_force_never_pulls :
    (¬ ∃ A B : WaterParticle ℝ,
      (distanceTo Real.sqrt A.position B.position < springSeparation ∧
        distanceTo Real.sqrt A.position B.position > 0) ∧
      0 < k * (distanceTo Real.sqrt A.position B.position - springSeparation)) ∧
    (¬ ∃ A B : WaterParticle ℝ,
      (distanceTo Real.sqrt A.position B.position < springSeparation ∧
        distanceTo Real.sqrt A.position B.position > 0) ∧
      0 < ((applySpringForce Real.sqrt A B).velocity.x - A.velocity.x)
            * (B.position.x - A.position.x)
          + ((applySpringForce Real.sqrt A B).velocity.y - A.velocity.y)
            * (B.position.y - A.position.y)) ∧
    (applySpringForce Real.sqrt (⟨⟨0, 0⟩, ⟨0, 0⟩⟩ : WaterParticle ℝ)
        ⟨⟨0.03, 0⟩, ⟨0, 0⟩⟩).velocity = ⟨-(9 / 16000000), 0⟩ := by
  refine ⟨?_, ?_, ?_⟩
  · rintro ⟨A, B, ⟨h1, h0⟩, hf⟩
    exact absurd hf (not_lt.mpr (spring_force_negative_of_range A B h0 h1).1.le)
  · rintro ⟨A, B, ⟨h1, h0⟩, hf⟩
    exact absurd hf (not_lt.mpr (spring_force_negative_of_range A B h0 h1).2.le)
  · have hd := sqrt_gap_three_hundredths
    have hv := applySpringForce_velocity_of_range Real.sqrt
      (⟨⟨0, 0⟩, ⟨0, 0⟩⟩ : WaterParticle ℝ) ⟨⟨0.03, 0⟩, ⟨0, 0⟩⟩
      (by rw [hd]; norm_num) (by rw [hd]; norm_num [springSeparation])
    rw [hv]
    simp only [hd]
    norm_num [k, spread, springSeparation]

/-- C13, amended: in exact real arithmetic, for every pair of particles that
meets the trigger condition `0 < d < springSeparation`,
`f = k * (d - springSeparation)` is negative, and `applySpringForce` in both
directions changes each particle's velocity away from the other particle
(negative dot product with the vector to the other particle). -/
theorem spring_force_pushes_apart (A B : WaterParticle ℝ)
    (h0 : 0 < distanceTo Real.sqrt A.position B.position)
    (h1 : distanceTo Real.sqrt A.position B.position < springSeparation) :
    k * (distanceTo Real.sqrt A.position B.position - springSeparation) < 0 ∧
    ((applySpringForce Real.sqrt A B).velocity.x - A.velocity.x)
        * (B.position.x - A.position.x)
      + ((applySpringForce Real.sqrt A B).velocity.y - A.velocity.y)
        * (B.position.y - A.position.y) < 0 ∧
    ((applySpringForce Real.sqrt B (applySpringForce Real.sqrt A B)).velocity.x - B.velocity.x)
        * (A.position.x - B.position.x)
      + ((applySpringForce Real.sqrt B (applySpringForce Real.sqrt A B)).velocity.y
          - B.velocity.y)
        * (A.position.y - B.position.y) < 0 := by
  have hA := spring_force_negative_of_range A B h0 h1
  have hpos := applySpringForce_position Real.sqrt A B
  have hsw : distanceTo Real.sqrt B.position (applySpringForce Real.sqrt A B).position
      = distanceTo Real.sqrt A.position B.position := by
    rw [hpos, distanceTo_swap]
  have hB := spring_force_negative_of_range B (applySpringForce Real.sqrt A B)
    (by rw [hsw]; exact h0) (by rw [hsw]; exact h1)
  rw [hpos] at hB
  exact ⟨hA.1, hA.2, hB.2⟩

/-- C13, amended, at `A = (0, 0)`, `B = (0.03, 0)`, both at rest. -/
theorem spring_force_pushes_apart_witness :
    k * (distanceTo Real.sqrt (⟨0, 0⟩ : Vector2 ℝ) ⟨0.03, 0⟩ - springSeparation) < 0 ∧
    ((applySpringForce Real.sqrt (⟨⟨0, 0⟩, ⟨0, 0⟩⟩ : WaterParticle ℝ)
          ⟨⟨0.03, 0⟩, ⟨0, 0⟩⟩).velocity.x - 0) * (0.03 - 0)
      + ((applySpringForce Real.sqrt (⟨⟨0, 0⟩, ⟨0, 0⟩⟩ : WaterParticle ℝ)
          ⟨⟨0.03, 0⟩, ⟨0, 0⟩⟩).velocity.y - 0) * (0 - 0) < 0 ∧
    ((applySpringForce Real.sqrt (⟨⟨0.03, 0⟩, ⟨0, 0⟩⟩ : WaterParticle ℝ)
          (applySpringForce Real.sqrt ⟨⟨0, 0⟩, ⟨0, 0⟩⟩ ⟨⟨0.03, 0⟩, ⟨0, 0⟩⟩)).velocity.x - 0)
        * (0 - 0.03)
      + ((applySpringForce Real.sqrt (⟨⟨0.03, 0⟩, ⟨0, 0⟩⟩ : WaterParticle ℝ)
          (applySpringForce Real.sqrt ⟨⟨0, 0⟩, ⟨0, 0⟩⟩ ⟨⟨0.03, 0⟩, ⟨0, 0⟩⟩)).velocity.y - 0)
        * (0 - 0) < 0 :=
  spring_force_pushes_apart ⟨⟨0, 0⟩, ⟨0, 0⟩⟩ ⟨⟨0.03, 0⟩, ⟨0, 0⟩⟩
    (by rw [sqrt_gap_three_hundredths]; norm_num)
    (by rw [sqrt_gap_three_hundredths]; norm_num [springSeparation])

/-! ### Surface tension at the ends of its band -/

theorem surface_tension_magnitude (A B : WaterParticle ℝ)
    (h0 : springSeparation < distanceTo Real.sqrt A.position B.position)
    (h1 : distanceTo Real.sqrt A.position B.position < 2 * springSeparation) :
    Real.sqrt (((applySurfaceTension Real.sqrt A B).velocity.x - A.velocity.x) ^ 2
        + ((applySurfaceTension Real.sqrt A B).velocity.y - A.velocity.y) ^ 2)
      = tensionFactor * (2 * springSeparation - distanceTo Real.sqrt A.position B.position) := by
  have hv := applySurfaceTension_velocity_of_band Real.sqrt A B h0 h1
  have hs : (0 : ℝ) < springSeparation := by norm_num [springSeparation]
  have ht : (0 : ℝ) < tensionFactor := by norm_num [tensionFactor]
  have hu := unit_direction A.position B.position (lt_trans hs h0)
  have hc : 0 ≤ tensionFactor
      * (2 * springSeparation - distanceTo Real.sqrt A.position B.position) :=
    mul_nonneg ht.le (by linarith)
  have e : ((applySurfaceTension Real.sqrt A B).velocity.x - A.velocity.x) ^ 2
        + ((applySurfaceTension Real.sqrt A B).velocity.y - A.velocity.y) ^ 2
      = (tensionFactor
          * (2 * springSeparation - distanceTo Real.sqrt A.position B.position)) ^ 2 := by
    rw [hv]
    calc _ = (tensionFactor
              * (2 * springSeparation - distanceTo Real.sqrt A.position B.position)) ^ 2
            * (((B.position.x - A.position.x)
                  / distanceTo Real.sqrt A.position B.position) ^ 2
              + ((B.position.y - A.position.y)
                  / distanceTo Real.sqrt A.position B.position) ^ 2) := by ring
      _ = _ := by rw [hu, mul_one]
  rw [e, Real.sqrt_sq hc]

/-- C15 as stated fails at the lower end of the band: the velocity change made
by `applySurfaceTension` does not become small as the distance approaches
`springSeparation` from above (it stays above `0.0001` arbitrarily close to that
end), so the force does not vanish at both ends; for instance at distance
`0.0376` the receiver gains `0.007 * (0.075 - 0.0376) = 0.0002618`. -/
theorem surface_tension_not_vanishing_at_lower_end :
    (¬ ((∀ ε : ℝ, 0 < ε → ∃ δ : ℝ, 0 < δ ∧ ∀ A B : WaterParticle ℝ,
          springSeparation < distanceTo Real.sqrt A.position B.position →
          distanceTo Real.sqrt A.position B.position < 2 * springSeparation →
          distanceTo Real.sqrt A.position B.position < springSeparation + δ →
          Real.sqrt (((applySurfaceTension Real.sqrt A B).velocity.x - A.velocity.x) ^ 2
            + ((applySurfaceTension Real.sqrt A B).velocity.y - A.velocity.y) ^ 2) < ε) ∧
        (∀ ε : ℝ, 0 < ε → ∃ δ : ℝ, 0 < δ ∧ ∀ A B : WaterParticle ℝ,
          springSeparation < distanceTo Real.sqrt A.position B.position →
          distanceTo Real.sqrt A.position B.position < 2 * springSeparation →
          2 * springSeparation - δ < distanceTo Real.sqrt A.position B.position →
          Real.sqrt (((applySurfaceTension Real.sqrt A B).velocity.x - A.velocity.x) ^ 2
            + ((applySurfaceTension Real.sqrt A B).velocity.y - A.velocity.y) ^ 2) < ε))) ∧
    (applySurfaceTension Real.sqrt (⟨⟨0, 0⟩, ⟨0, 0⟩⟩ : WaterParticle ℝ)
        ⟨⟨0.0376, 0⟩, ⟨0, 0⟩⟩).velocity = ⟨0.0002618, 0⟩ := by
  have hs : (springSeparation : ℝ) = 0.0375 := by norm_num [springSeparation]
  constructor
  · rintro ⟨hlow, -⟩
    obtain ⟨δ, hδ, h⟩ := hlow 0.0001 (by norm_num)
    obtain ⟨m, hm0, hm1, hm2⟩ : ∃ m : ℝ, 0 < m ∧ m ≤ springSeparation ∧ m ≤ δ :=
      ⟨min δ springSeparation, lt_min hδ (by rw [hs]; norm_num), min_le_right _ _,
        min_le_left _ _⟩
    have hs0 : (0 : ℝ) < springSeparation := by rw [hs]; norm_num
    have hx : (0 : ℝ) ≤ springSeparation + m / 2 := by linarith
    have hd := distanceTo_on_axis (springSeparation + m / 2) hx
    have hA : (⟨⟨0, 0⟩, ⟨0, 0⟩⟩ : WaterParticle ℝ).position = ⟨0, 0⟩ := rfl
    have hB : (⟨⟨springSeparation + m / 2, 0⟩, ⟨0, 0⟩⟩ :
        WaterParticle ℝ).position = ⟨springSeparation + m / 2, 0⟩ := rfl
    have b0 : springSeparation < distanceTo Real.sqrt
        (⟨⟨0, 0⟩, ⟨0, 0⟩⟩ : WaterParticle ℝ).position
        (⟨⟨springSeparation + m / 2, 0⟩, ⟨0, 0⟩⟩ : WaterParticle ℝ).position := by
      rw [hA, hB, hd]
      linarith
    have b1 : distanceTo Real.sqrt
        (⟨⟨0, 0⟩, ⟨0, 0⟩⟩ : WaterParticle ℝ).position
        (⟨⟨springSeparation + m / 2, 0⟩, ⟨0, 0⟩⟩ : WaterParticle ℝ).position
        < 2 * springSeparation := by
      rw [hA, hB, hd]
      linarith
    have b2 : distanceTo Real.sqrt
        (⟨⟨0, 0⟩, ⟨0, 0⟩⟩ : WaterParticle ℝ).position
        (⟨⟨springSeparation + m / 2, 0⟩, ⟨0, 0⟩⟩ : WaterParticle ℝ).position
        < springSeparation + δ := by
      rw [hA, hB, hd]
      linarith
    have hlt := h _ _ b0 b1 b2
    rw [surface_tension_magnitude _ _ b0 b1, hA, hB, hd] at hlt
    have ht : (tensionFactor : ℝ) = 0.007 := by norm_num [tensionFactor]
    rw [ht, hs] at hlt
    rw [hs] at hm1
    norm_num at hlt hm1
    linarith
  · have hd : distanceTo Real.sqrt (⟨0, 0⟩ : Vector2 ℝ) ⟨0.0376, 0⟩ = 0.0376 :=
      distanceTo_on_axis 0.0376 (by norm_num)
    have hv := applySurfaceTension_velocity_of_band Real.sqrt
      (⟨⟨0, 0⟩, ⟨0, 0⟩⟩ : WaterParticle ℝ) ⟨⟨0.0376, 0⟩, ⟨0, 0⟩⟩
      (by rw [hd, hs]; norm_num) (by rw [hd, hs]; norm_num)
    rw [hv]
    simp only [hd]
    norm_num [tensionFactor, springSeparation]

/-- C15, amended: the velocity change made by `applySurfaceTension` has length
`tensionFactor * (2 * springSeparation - d)`; it tends to `0` as the distance
approaches `2 * springSeparation` from below, and to
`tensionFactor * springSeparation` (which is `0.0002625`, not `0`) as the
distance approaches `springSeparation` from above. -/
theorem surface_tension_limits (ε : ℝ) (hε : 0 < ε) :
    (∃ δ : ℝ, 0 < δ ∧ ∀ A B : WaterParticle ℝ,
      springSeparation < distanceTo Real.sqrt A.position B.position →
      distanceTo Real.sqrt A.position B.position < 2 * springSeparation →
      2 * springSeparation - δ < distanceTo Real.sqrt A.position B.position →
      Real.sqrt (((applySurfaceTension Real.sqrt A B).velocity.x - A.velocity.x) ^ 2
        + ((applySurfaceTension Real.sqrt A B).velocity.y - A.velocity.y) ^ 2) < ε) ∧
    (∃ δ : ℝ, 0 < δ ∧ ∀ A B : WaterParticle ℝ,
      springSeparation < distanceTo Real.sqrt A.position B.position →
      distanceTo Real.sqrt A.position B.position < 2 * springSeparation →
      distanceTo Real.sqrt A.position B.position < springSeparation + δ →
      |Real.sqrt (((applySurfaceTension Real.sqrt A B).velocity.x - A.velocity.x) ^ 2
          + ((applySurfaceTension Real.sqrt A B).velocity.y - A.velocity.y) ^ 2)
        - tensionFactor * springSeparation| < ε) ∧
    (tensionFactor * springSeparation : ℝ) = 0.0002625 := by
  have ht : (0 : ℝ) < tensionFactor := by norm_num [tensionFactor]
  have hδ : 0 < ε / tensionFactor := div_pos hε ht
  have hmul : tensionFactor * (ε / tensionFactor) = ε := by field_simp
  refine ⟨⟨ε / tensionFactor, hδ, ?_⟩, ⟨ε / tensionFactor, hδ, ?_⟩, ?_⟩
  · intro A B b0 b1 b2
    rw [surface_tension_magnitude A B b0 b1]
    calc tensionFactor * (2 * springSeparation - distanceTo Real.sqrt A.position B.position)
        < tensionFactor * (ε / tensionFactor) := by
          apply mul_lt_mul_of_pos_left _ ht
          linarith
      _ = ε := hmul
  · intro A B b0 b1 b2
    rw [surface_tension_magnitude A B b0 b1, abs_lt]
    have h1 : tensionFactor * (distanceTo Real.sqrt A.position B.position - springSeparation)
        < tensionFactor * (ε / tensionFactor) := by
      apply mul_lt_mul_of_pos_left _ ht
      linarith
    have h2 : 0 < tensionFactor
        * (distanceTo Real.sqrt A.position B.position - springSeparation) :=
      mul_pos ht (by linarith)
    rw [hmul] at h1
    constructor <;> nlinarith
  · norm_num [tensionFactor, springSeparation]

/-- C15, amended, at `ε = 0.0001`. -/
theorem surface_tension_limits_witness :
    (∃ δ : ℝ, 0 < δ ∧ ∀ A B : WaterParticle ℝ,
      springSeparation < distanceTo Real.sqrt A.position B.position →
      distanceTo Real.sqrt A.position B.position < 2 * springSeparation →
      2 * springSeparation - δ < distanceTo Real.sqrt A.position B.position →
      Real.sqrt (((applySurfaceTension Real.sqrt A B).velocity.x - A.velocity.x) ^ 2
        + ((applySurfaceTension Real.sqrt A B).velocity.y - A.velocity.y) ^ 2) < 0.0001) ∧
    (∃ δ : ℝ, 0 < δ ∧ ∀ A B : WaterParticle ℝ,
      springSeparation < distanceTo Real.sqrt A.position B.position →
      distanceTo Real.sqrt A.position B.position < 2 * springSeparation →
      distanceTo Real.sqrt A.position B.position < springSeparation + δ →
      |Real.sqrt (((applySurfaceTension Real.sqrt A B).velocity.x - A.velocity.x) ^ 2
          + ((applySurfaceTension Real.sqrt A B).velocity.y - A.velocity.y) ^ 2)
        - tensionFactor * springSeparation| < 0.0001) ∧
    (tensionFactor * springSeparation : ℝ) = 0.0002625 :=
  surface_tension_limits 0.0001 (by norm_num)

/-! ### Velocity bounds of `update` -/

theorem collide_velocity_cases (q : WaterParticle α) :
    ((collide q).velocity.x = q.velocity.x ∨ (collide q).velocity.x = 0) ∧
    ((collide q).velocity.y = q.velocity.y ∨ (collide q).velocity.y = 0) := by
  constructor <;>
    simp only [collide, apply_ite WaterParticle.position, apply_ite WaterParticle.velocity,
      apply_ite Vector2.x, apply_ite Vector2.y, ite_self] <;>
    split_ifs <;> norm_num

/-- C20: with the declared constants, after `update` the absolute value of
`velocity.x` is at most its value before, and if `|velocity.y| ≤ 0.05` before
`update` then `|velocity.y| ≤ 0.05` after it, for every particle and water
level. -/
theorem update_velocity_bounded (p : WaterParticle α) (waterLevel : α) :
    |(update p waterLevel).velocity.x| ≤ |p.velocity.x| ∧
    (|p.velocity.y| ≤ 0.05 → |(update p waterLevel).velocity.y| ≤ 0.05) := by
  have hc := collide_velocity_cases (integrate p waterLevel)
  have hx : (integrate p waterLevel).velocity.x = p.velocity.x * dragFactor * dampingFactor :=
    rfl
  have hy : (integrate p waterLevel).velocity.y =
      (if p.position.y < waterLevel then p.velocity.y - gravity + buoyancyFactor
        else p.velocity.y - gravity) * dragFactor * dampingFactor := rfl
  constructor
  · rcases hc.1 with h | h
    · rw [update, h, hx, mul_assoc, abs_mul]
      have hf : |(dragFactor * dampingFactor : α)| ≤ 1 := by
        norm_num [dragFactor, dampingFactor, abs_le]
      calc |p.velocity.x| * |(dragFactor * dampingFactor : α)|
          ≤ |p.velocity.x| * 1 := mul_le_mul_of_nonneg_left hf (abs_nonneg _)
        _ = |p.velocity.x| := mul_one _
    · rw [update, h, abs_zero]
      exact abs_nonneg _
  · intro hv
    have hb := abs_le.mp hv
    rcases hc.2 with h | h
    · rw [update, h, hy, abs_le]
      split_ifs <;>
        norm_num [gravity, buoyancyFactor, dragFactor, dampingFactor] at hb ⊢ <;>
        constructor <;> linarith [hb.1, hb.2]
    · rw [update, h, abs_zero]
      norm_num

/-- C20 at the particle at `(0, 0)` with velocity `(0.3, -0.05)` and water level
`-1`: `|velocity.y| ≤ 0.05` holds before and after `update`. -/
theorem update_velocity_bounded_witness :
    |(update (⟨⟨0, 0⟩, ⟨0.3, -0.05⟩⟩ : WaterParticle ℚ) (-1)).velocity.x| ≤ |(0.3 : ℚ)| ∧
    |(update (⟨⟨0, 0⟩, ⟨0.3, -0.05⟩⟩ : WaterParticle ℚ) (-1)).velocity.y| ≤ 0.05 :=
  ⟨(update_velocity_bounded (⟨⟨0, 0⟩, ⟨0.3, -0.05⟩⟩ : WaterParticle ℚ) (-1)).1,
   (update_velocity_bounded (⟨⟨0, 0⟩, ⟨0.3, -0.05⟩⟩ : WaterParticle ℚ) (-1)).2
     (by norm_num [abs_le])⟩

/-! ### The pairwise pass in closed form -/

theorem addVelocity_zero (p : WaterParticle α) : addVelocity p ⟨0, 0⟩ = p := by
  obtain ⟨pos, ⟨vx, vy⟩⟩ := p
  simp [addVelocity]

theorem addVelocity_velocity (p : WaterParticle α) (d : Vector2 α) :
    (addVelocity p d).velocity = ⟨p.velocity.x + d.x, p.velocity.y + d.y⟩ := rfl

theorem addVelocity_position (p : WaterParticle α) (d : Vector2 α) :
    (addVelocity p d).position = p.position := rfl

theorem applySpringForce_eq_addVelocity (sqrt : α → α) (self other : WaterParticle α) :
    applySpringForce sqrt self other
      = addVelocity self (springImpulse sqrt self.position other.position) := by
  unfold applySpringForce springImpulse
  simp only []
  split_ifs
  · rfl
  · exact (addVelocity_zero self).symm

theorem applySurfaceTension_eq_addVelocity (sqrt : α → α) (self other : WaterParticle α) :
    applySurfaceTension sqrt self other
      = addVelocity self (tensionImpulse sqrt self.position other.position) := by
  unfold applySurfaceTension tensionImpulse
  simp only []
  split_ifs
  · rfl
  · exact (addVelocity_zero self).symm

theorem applyAt_cons_succ (f : WaterParticle α → WaterParticle α → WaterParticle α)
    (p : WaterParticle α) (l : List (WaterParticle α)) (i j : Nat) :
    applyAt f (p :: l) (i + 1) (j + 1) = p :: applyAt f l i j := by
  cases hi : l[i]? <;> cases hj : l[j]? <;> simp [applyAt, hi, hj]

theorem pairBody_cons_succ (sqrt : α → α) (p : WaterParticle α)
    (l : List (WaterParticle α)) (i j : Nat) :
    pairBody sqrt (p :: l) (i + 1) (j + 1) = p :: pairBody sqrt l i j := by
  simp only [pairBody, applyAt_cons_succ]

theorem pairBody_head (sqrt : α → α) (p q : WaterParticle α)
    (done todo : List (WaterParticle α)) :
    pairBody sqrt (p :: (done ++ q :: todo)) 0 (done.length + 1)
      = addVelocity p (pairImpulse sqrt p.position q.position)
          :: (done ++ addVelocity q (pairImpulse sqrt q.position p.position) :: todo) := by
  have hq : ∀ (r : WaterParticle α), (done ++ r :: todo)[done.length]? = some r := by
    intro r
    rw [List.getElem?_append_right (le_refl _)]
    simp
  have hset : ∀ (r r' : WaterParticle α),
      (done ++ r :: todo).set done.length r' = done ++ r' :: todo := by
    intro r r'
    simp
  simp only [pairBody, applyAt, List.getElem?_cons_zero, List.getElem?_cons_succ, hq,
    List.set_cons_zero, List.set_cons_succ, hset, applySpringForce_eq_addVelocity,
    applySurfaceTension_eq_addVelocity, addVelocity_position]
  simp only [addVelocity, pairImpulse, List.cons.injEq, WaterParticle.mk.injEq,
    Vector2.mk.injEq, true_and, List.append_cancel_left_eq, and_true]
  refine ⟨⟨by ring, by ring⟩, by ring, by ring⟩

theorem netImpulse_nil (sqrt : α → α) (a : Vector2 α) : netImpulse sqrt [] a = ⟨0, 0⟩ := by
  simp [netImpulse]

theorem addVelocity_netImpulse_cons (sqrt : α → α) (p : WaterParticle α) (b : Vector2 α)
    (others : List (Vector2 α)) :
    addVelocity (addVelocity p (pairImpulse sqrt p.position b))
        (netImpulse sqrt others p.position)
      = addVelocity p (netImpulse sqrt (b :: others) p.position) := by
  simp only [addVelocity, netImpulse, List.map_cons, List.sum_cons, WaterParticle.mk.injEq,
    Vector2.mk.injEq, true_and]
  exact ⟨by ring, by ring⟩

theorem inner_loop_head (sqrt : α → α) (todo done : List (WaterParticle α))
    (p : WaterParticle α) :
    (List.range' (done.length + 1) todo.length).foldl (fun s j => pairBody sqrt s 0 j)
        (p :: (done ++ todo))
      = addVelocity p (netImpulse sqrt (todo.map WaterParticle.position) p.position)
          :: (done ++ todo.map fun q =>
                addVelocity q (pairImpulse sqrt q.position p.position)) := by
  induction todo generalizing done p with
  | nil => simp [netImpulse_nil, addVelocity_zero]
  | cons q todo ih =>
    rw [List.length_cons, List.range'_succ, List.foldl_cons, pairBody_head]
    have hl : done.length + 1
        = (done ++ [addVelocity q (pairImpulse sqrt q.position p.position)]).length := by
      simp
    have happ : done ++ addVelocity q (pairImpulse sqrt q.position p.position) :: todo
        = (done ++ [addVelocity q (pairImpulse sqrt q.position p.position)]) ++ todo := by
      simp
    rw [happ, hl, ih]
    simp only [addVelocity_position, List.map_cons, List.append_assoc, List.singleton_append,
      addVelocity_netImpulse_cons]

theorem visitedPairs_succ (n : Nat) :
    visitedPairs (n + 1)
      = (List.range' 1 n).map (fun j => (0, j))
          ++ (visitedPairs n).map fun ij => (ij.1 + 1, ij.2 + 1) := by
  rw [visitedPairs_eq, visitedPairs_eq, List.range_succ_eq_map, List.flatMap_cons,
    List.flatMap_map, List.map_flatMap]
  have hinner : (fun i => (List.range' (i.succ + 1) (n + 1 - (i.succ + 1))).map
        fun j => (i.succ, j))
      = fun i => ((List.range' (i + 1) (n - (i + 1))).map fun j => (i, j)).map
        fun ij => (ij.1 + 1, ij.2 + 1) := by
    funext i
    have h1 : n + 1 - (i.succ + 1) = n - (i + 1) := by omega
    have h2 : i.succ + 1 = 1 + (i + 1) := by omega
    rw [h1, h2, ← List.map_add_range' 1, List.map_map, List.map_map]
    apply List.map_congr_left
    intro j _
    simp [Nat.add_comm]
  have hfirst : (List.range' (0 + 1) (n + 1 - (0 + 1))).map (fun j => (0, j))
      = (List.range' 1 n).map fun j => (0, j) := by
    simp
  rw [hfirst]
  exact congrArg (fun t => (List.range' 1 n).map (fun j => (0, j)) ++ t)
    (congrArg (fun f => (List.range n).flatMap f) hinner)

theorem foldl_pairBody_shift (sqrt : α → α) (L : List (Nat × Nat)) (p : WaterParticle α)
    (l : List (WaterParticle α)) :
    (L.map fun ij => (ij.1 + 1, ij.2 + 1)).foldl (fun s ij => pairBody sqrt s ij.1 ij.2)
        (p :: l)
      = p :: L.foldl (fun s ij => pairBody sqrt s ij.1 ij.2) l := by
  induction L generalizing l with
  | nil => rfl
  | cons ij L ih =>
    rw [List.map_cons, List.foldl_cons, List.foldl_cons, pairBody_cons_succ, ih]

theorem applyPairwiseForces_eq_foldl (sqrt : α → α) (ps : List (WaterParticle α)) :
    applyPairwiseForces sqrt ps
      = (visitedPairs ps.length).foldl (fun s ij => pairBody sqrt s ij.1 ij.2) ps := by
  rw [applyPairwiseForces, forPairs_eq_foldl, ← visitedPairs_eq]

theorem applyPairwiseForces_cons (sqrt : α → α) (p : WaterParticle α)
    (rest : List (WaterParticle α)) :
    applyPairwiseForces sqrt (p :: rest)
      = addVelocity p (netImpulse sqrt (rest.map WaterParticle.position) p.position)
          :: applyPairwiseForces sqrt
              (rest.map fun q => addVelocity q (pairImpulse sqrt q.position p.position)) := by
  rw [applyPairwiseForces_eq_foldl, applyPairwiseForces_eq_foldl, List.length_cons,
    visitedPairs_succ, List.foldl_append, List.length_map]
  have h := inner_loop_head sqrt rest [] p
  simp only [List.length_nil, Nat.zero_add, List.nil_append] at h
  have h' : ((List.range' 1 rest.length).map fun j => (0, j)).foldl
        (fun s ij => pairBody sqrt s ij.1 ij.2) (p :: rest)
      = addVelocity p (netImpulse sqrt (rest.map WaterParticle.position) p.position)
          :: rest.map fun q => addVelocity q (pairImpulse sqrt q.position p.position) := by
    rw [List.foldl_map]
    exact h
  rw [h', foldl_pairBody_shift]

theorem springImpulse_antisymm (sqrt : α → α) (a b : Vector2 α) :
    (springImpulse sqrt b a).x = -(springImpulse sqrt a b).x ∧
    (springImpulse sqrt b a).y = -(springImpulse sqrt a b).y := by
  have e : (a.x - b.x) * (a.x - b.x) + (a.y - b.y) * (a.y - b.y)
      = (b.x - a.x) * (b.x - a.x) + (b.y - a.y) * (b.y - a.y) := by ring
  simp only [springImpulse, e]
  split_ifs
  · constructor <;> ring
  · simp

theorem tensionImpulse_antisymm (sqrt : α → α) (a b : Vector2 α) :
    (tensionImpulse sqrt b a).x = -(tensionImpulse sqrt a b).x ∧
    (tensionImpulse sqrt b a).y = -(tensionImpulse sqrt a b).y := by
  have e : (a.x - b.x) * (a.x - b.x) + (a.y - b.y) * (a.y - b.y)
      = (b.x - a.x) * (b.x - a.x) + (b.y - a.y) * (b.y - a.y) := by ring
  simp only [tensionImpulse, e]
  split_ifs
  · constructor <;> ring
  · simp

theorem pairImpulse_antisymm (sqrt : α → α) (a b : Vector2 α) :
    (pairImpulse sqrt b a).x = -(pairImpulse sqrt a b).x ∧
    (pairImpulse sqrt b a).y = -(pairImpulse sqrt a b).y := by
  have hs := springImpulse_antisymm sqrt a b
  have ht := tensionImpulse_antisymm sqrt a b
  simp only [pairImpulse, hs.1, hs.2, ht.1, ht.2]
  constructor <;> ring

theorem pairImpulse_self (sqrt : α → α) (a : Vector2 α) : pairImpulse sqrt a a = ⟨0, 0⟩ := by
  have h := pairImpulse_antisymm sqrt a a
  have hx : (pairImpulse sqrt a a).x = 0 := by linarith [h.1]
  have hy : (pairImpulse sqrt a a).y = 0 := by linarith [h.2]
  cases hp : pairImpulse sqrt a a with
  | mk x y =>
    rw [hp] at hx hy
    simp only at hx hy
    rw [hx, hy]

theorem applyPairwiseForces_closed_form (sqrt : α → α) (ps : List (WaterParticle α)) :
    applyPairwiseForces sqrt ps
      = ps.map fun p =>
          addVelocity p (netImpulse sqrt (ps.map WaterParticle.position) p.position) := by
  generalize hn : ps.length = n
  induction n generalizing ps with
  | zero =>
    rw [List.length_eq_zero] at hn
    subst hn
    rfl
  | succ n ih =>
    match ps, hn with
    | p :: rest, hn =>
      have hlen : (rest.map fun q =>
          addVelocity q (pairImpulse sqrt q.position p.position)).length = n := by
        simpa using hn
      have hposs : (rest.map fun q =>
            addVelocity q (pairImpulse sqrt q.position p.position)).map WaterParticle.position
          = rest.map WaterParticle.position := by
        rw [List.map_map]
        rfl
      rw [applyPairwiseForces_cons, ih _ hlen, hposs, List.map_cons, List.map_cons,
        List.map_map]
      congr 1
      · rw [← addVelocity_netImpulse_cons, pairImpulse_self, addVelocity_zero]
      · apply List.map_congr_left
        intro q _
        simp only [Function.comp_apply, addVelocity_position]
        exact addVelocity_netImpulse_cons sqrt q p.position _

theorem netImpulse_perm (sqrt : α → α) (a : Vector2 α) (l l' : List (Vector2 α))
    (h : l.Perm l') : netImpulse sqrt l a = netImpulse sqrt l' a := by
  simp only [netImpulse, (h.map _).sum_eq]

/-- C11: for a collection of `n` particles given as `f : Fin n → WaterParticle`
and any permutation `σ` of the indices, with `g` the result of the pairwise
pass on the collection in its original order, the pairwise pass on the
collection reordered by `σ` is `g` reordered by `σ`: every particle leaves the
pass with the same position and velocity under either traversal order. -/
theorem pairwise_pass_order_independent (n : Nat) (f : Fin n → WaterParticle ℝ)
    (σ : Equiv.Perm (Fin n)) :
    ∃ g : Fin n → WaterParticle ℝ,
      applyPairwiseForces Real.sqrt (List.ofFn f) = List.ofFn g ∧
      applyPairwiseForces Real.sqrt (List.ofFn fun i => f (σ i)) = List.ofFn fun i => g (σ i) := by
  have hperm : (List.ofFn (f ∘ σ)).Perm (List.ofFn f) := σ.ofFn_comp_perm f
  have hnet : ∀ a : Vector2 ℝ,
      netImpulse Real.sqrt ((List.ofFn (f ∘ σ)).map WaterParticle.position) a
        = netImpulse Real.sqrt ((List.ofFn f).map WaterParticle.position) a :=
    fun a => netImpulse_perm Real.sqrt a _ _ (hperm.map _)
  refine ⟨fun i => addVelocity (f i)
    (netImpulse Real.sqrt ((List.ofFn f).map WaterParticle.position) (f i).position), ?_, ?_⟩
  · rw [applyPairwiseForces_closed_form, List.map_ofFn]
    rfl
  · show applyPairwiseForces Real.sqrt (List.ofFn (f ∘ σ)) = _
    rw [applyPairwiseForces_closed_form, List.map_ofFn]
    simp only [hnet]
    rfl

/-! ### Momentum -/

theorem sum_velocity_after_reaction (sqrt : α → α) (a : Vector2 α)
    (rest : List (WaterParticle α)) :
    ((rest.map fun q => addVelocity q (pairImpulse sqrt q.position a)).map
        fun q => q.velocity.x).sum
      = (rest.map fun q => q.velocity.x).sum
          - (netImpulse sqrt (rest.map WaterParticle.position) a).x ∧
    ((rest.map fun q => addVelocity q (pairImpulse sqrt q.position a)).map
        fun q => q.velocity.y).sum
      = (rest.map fun q => q.velocity.y).sum
          - (netImpulse sqrt (rest.map WaterParticle.position) a).y := by
  induction rest with
  | nil => simp [netImpulse]
  | cons q rest ih =>
    have h := pairImpulse_antisymm sqrt a q.position
    simp only [netImpulse] at ih
    simp only [List.map_cons, List.sum_cons, addVelocity_velocity, netImpulse, ih.1, ih.2,
      h.1, h.2]
    constructor <;> ring

theorem applyPairwiseForces_sum_velocity (sqrt : α → α) (ps : List (WaterParticle α)) :
    ((applyPairwiseForces sqrt ps).map fun p => p.velocity.x).sum
      = (ps.map fun p => p.velocity.x).sum ∧
    ((applyPairwiseForces sqrt ps).map fun p => p.velocity.y).sum
      = (ps.map fun p => p.velocity.y).sum := by
  generalize hn : ps.length = n
  induction n generalizing ps with
  | zero =>
    rw [List.length_eq_zero] at hn
    subst hn
    exact ⟨rfl, rfl⟩
  | succ n ih =>
    match ps, hn with
    | p :: rest, hn =>
      have hlen : (rest.map fun q =>
          addVelocity q (pairImpulse sqrt q.position p.position)).length = n := by
        simpa using hn
      have hr := sum_velocity_after_reaction sqrt p.position rest
      have hi := ih _ hlen
      rw [applyPairwiseForces_cons]
      simp only [List.map_cons, List.sum_cons, hi.1, hi.2, hr.1, hr.2, addVelocity_velocity]
      constructor <;> ring

/-- C18: for every particle collection, the sum of all particles' `velocity.x`
and the sum of all particles' `velocity.y` after the pairwise loop of spring and
surface-tension forces equal the sums before it. -/
theorem pairwise_pass_conserves_momentum (ps : List (WaterParticle ℝ)) :
    ((applyPairwiseForces Real.sqrt ps).map fun p => p.velocity.x).sum
      = (ps.map fun p => p.velocity.x).sum ∧
    ((applyPairwiseForces Real.sqrt ps).map fun p => p.velocity.y).sum
      = (ps.map fun p => p.velocity.y).sum :=
  applyPairwiseForces_sum_velocity Real.sqrt ps

/-! ### Binary32 rounding -/

theorem roundTiesEven_cases [FloorRing α] (y : α) :
    roundTiesEven y = ⌊y⌋ ∨ (roundTiesEven y = ⌊y⌋ + 1 ∧ 1 / 2 ≤ y - ⌊y⌋) := by
  unfold roundTiesEven
  simp only []
  split_ifs with h1 h2 h3
  · exact Or.inl rfl
  · exact Or.inr ⟨rfl, h2.le⟩
  · exact Or.inl rfl
  · exact Or.inr ⟨rfl, not_lt.mp h1⟩

theorem roundTiesEven_le [FloorRing α] (y : α) (N : ℤ) (h : y ≤ N) : roundTiesEven y ≤ N := by
  rcases roundTiesEven_cases y with h1 | ⟨h1, h2⟩
  · rw [h1]
    exact Int.floor_le_floor h |>.trans (by simp)
  · rw [h1]
    have hlt : (⌊y⌋ : α) < N := by linarith
    have : ⌊y⌋ < N := by exact_mod_cast hlt
    omega

theorem le_roundTiesEven [FloorRing α] (y : α) (N : ℤ) (h : (N : α) ≤ y) :
    N ≤ roundTiesEven y := by
  have hf : N ≤ ⌊y⌋ := Int.le_floor.mpr h
  rcases roundTiesEven_cases y with h1 | ⟨h1, _⟩ <;> rw [h1] <;> omega

theorem roundTiesEven_eq_of_near [FloorRing α] (y : α) (m : ℤ) (h : |y - m| < 1 / 2) :
    roundTiesEven y = m := by
  rw [abs_lt] at h
  rcases le_or_lt (m : α) y with hm | hm
  · have hf : ⌊y⌋ = m := by
      rw [Int.floor_eq_iff]
      constructor
      · exact hm
      · linarith [h.2]
    unfold roundTiesEven
    simp only [hf]
    rw [if_pos (by linarith [h.2])]
  · have hf : ⌊y⌋ = m - 1 := by
      rw [Int.floor_eq_iff]
      push_cast
      constructor <;> linarith [h.1]
    unfold roundTiesEven
    simp only [hf]
    push_cast
    rw [if_neg (by linarith [h.1]), if_pos (by linarith [h.1])]
    ring

theorem two_zpow_pos (e : ℤ) : (0 : α) < 2 ^ e := zpow_pos (by norm_num) e

theorem log_two_eq [FloorRing α] (x : α) (k : ℤ) (h0 : (2 : α) ^ k ≤ |x|)
    (h1 : |x| < 2 ^ (k + 1)) : Int.log 2 |x| = k := by
  have hpos : (0 : α) < |x| := lt_of_lt_of_le (two_zpow_pos k) h0
  have hb : 1 < (2 : ℕ) := by norm_num
  have a : k ≤ Int.log 2 |x| := by
    rw [← Int.zpow_le_iff_le_log hb hpos]
    simpa using h0
  have b : Int.log 2 |x| < k + 1 := by
    rw [← Int.lt_zpow_iff_log_lt hb hpos]
    simpa using h1
  omega

theorem roundF32_eq_of_near [FloorRing α] (x : α) (k m : ℤ) (hk : -126 ≤ k)
    (h0 : (2 : α) ^ k ≤ |x|) (h1 : |x| < 2 ^ (k + 1))
    (hnear : |x / 2 ^ (k - 23) - m| < 1 / 2) :
    roundF32 x = m * 2 ^ (k - 23) := by
  have hpos : (0 : α) < |x| := lt_of_lt_of_le (two_zpow_pos k) h0
  have hx : x ≠ 0 := abs_pos.mp hpos
  have hlog := log_two_eq x k h0 h1
  simp only [roundF32, if_neg hx, hlog, max_eq_left hk]
  rw [roundTiesEven_eq_of_near _ m hnear]

theorem abs_roundF32_le_zpow [FloorRing α] (x : α) (k : ℤ) (hk : -126 ≤ k)
    (h : |x| ≤ 2 ^ k) : |roundF32 x| ≤ 2 ^ k := by
  by_cases hx : x = 0
  · simp [roundF32, hx, (two_zpow_pos k).le]
  · have hpos : (0 : α) < |x| := abs_pos.mpr hx
    have hb : 1 < (2 : ℕ) := by norm_num
    have hj : Int.log 2 |x| ≤ k := by
      have : Int.log 2 |x| < k + 1 := by
        rw [← Int.lt_zpow_iff_log_lt hb hpos]
        have : (2 : α) ^ k < 2 ^ (k + 1) := zpow_lt_zpow_right₀ (by norm_num) (by omega)
        simpa using lt_of_le_of_lt h this
      omega
    simp only [roundF32, if_neg hx]
    generalize he : max (Int.log 2 |x|) (-126) - 23 = e
    have hek : e ≤ k - 23 := by
      rw [← he]
      have := max_le hj hk
      omega
    obtain ⟨n, hn⟩ : ∃ n : ℕ, (n : ℤ) = k - e := ⟨(k - e).toNat, Int.toNat_of_nonneg (by omega)⟩
    have hN : (2 : α) ^ n = 2 ^ (k - e) := by
      rw [← hn, zpow_natCast]
    have he0 := two_zpow_pos (α := α) e
    have hy : |x / 2 ^ e| ≤ 2 ^ (k - e) := by
      rw [abs_div, abs_of_pos he0, div_le_iff₀ he0, ← zpow_add₀ (by norm_num : (2 : α) ≠ 0)]
      simpa using h
    rw [abs_le] at hy
    have hu : roundTiesEven (x / 2 ^ e) ≤ (2 : ℤ) ^ n :=
      roundTiesEven_le _ _ (by push_cast; rw [hN]; exact hy.2)
    have hl : -((2 : ℤ) ^ n) ≤ roundTiesEven (x / 2 ^ e) :=
      le_roundTiesEven _ _ (by push_cast; rw [hN]; exact hy.1)
    have hu' : ((roundTiesEven (x / 2 ^ e) : ℤ) : α) ≤ 2 ^ (k - e) := by
      rw [← hN]
      exact_mod_cast hu
    have hl' : -(2 : α) ^ (k - e) ≤ ((roundTiesEven (x / 2 ^ e) : ℤ) : α) := by
      rw [← hN]
      exact_mod_cast hl
    rw [abs_mul, abs_of_pos he0]
    calc |((roundTiesEven (x / 2 ^ e) : ℤ) : α)| * 2 ^ e
        ≤ 2 ^ (k - e) * 2 ^ e := mul_le_mul_of_nonneg_right (abs_le.mpr ⟨hl', hu'⟩) he0.le
      _ = 2 ^ k := by rw [← zpow_add₀ (by norm_num : (2 : α) ≠ 0)]; simp

theorem zpow_le_roundF32 [FloorRing α] (x : α) (k : ℤ) (hk : -126 ≤ k)
    (h : (2 : α) ^ k ≤ x) : 2 ^ k ≤ roundF32 x := by
  have hpos : (0 : α) < x := lt_of_lt_of_le (two_zpow_pos k) h
  have hx : x ≠ 0 := ne_of_gt hpos
  have hb : 1 < (2 : ℕ) := by norm_num
  have habs : |x| = x := abs_of_pos hpos
  have hj : k ≤ Int.log 2 |x| := by
    rw [habs, ← Int.zpow_le_iff_le_log hb hpos]
    simpa using h
  have hle : (2 : α) ^ Int.log 2 |x| ≤ x := by
    have := Int.zpow_log_le_self hb hpos
    rw [habs]
    simpa using this
  simp only [roundF32, if_neg hx, max_eq_left (le_trans hk hj)]
  generalize Int.log 2 |x| = j at hj hle
  have he0 := two_zpow_pos (α := α) (j - 23)
  have h23 : (((2 : ℤ) ^ 23 : ℤ) : α) = (2 : α) ^ (23 : ℤ) := by norm_num
  have hsum : (23 : ℤ) + (j - 23) = j := by ring
  have hy : (((2 : ℤ) ^ 23 : ℤ) : α) ≤ x / 2 ^ (j - 23) := by
    rw [h23, le_div_iff₀ he0, ← zpow_add₀ (by norm_num : (2 : α) ≠ 0), hsum]
    exact hle
  have hr := le_roundTiesEven _ _ hy
  have hr' : (2 : α) ^ (23 : ℤ) ≤ ((roundTiesEven (x / 2 ^ (j - 23)) : ℤ) : α) := by
    rw [← h23]
    exact_mod_cast hr
  calc (2 : α) ^ k ≤ 2 ^ j := zpow_le_zpow_right₀ (by norm_num) hj
    _ = 2 ^ (23 : ℤ) * 2 ^ (j - 23) := by
        rw [← zpow_add₀ (by norm_num : (2 : α) ≠ 0), hsum]
    _ ≤ _ := mul_le_mul_of_nonneg_right hr' he0.le

theorem roundF32_zpow [FloorRing α] (k : ℤ) (hk : -126 ≤ k) :
    roundF32 ((2 : α) ^ k) = 2 ^ k :=
  le_antisymm
    (le_trans (le_abs_self _)
      (abs_roundF32_le_zpow _ k hk (by rw [abs_of_pos (two_zpow_pos k)])))
    (zpow_le_roundF32 _ k hk le_rfl)

theorem roundF32_zero [FloorRing α] : roundF32 (0 : α) = 0 := by
  simp [roundF32]

/-! ### The wave impulse in binary32 -/

theorem abs_sin_le_abs_self (t : ℝ) : |Real.sin t| ≤ |t| := by
  have h : ∀ u : ℝ, 0 ≤ u → |Real.sin u| ≤ u := by
    intro u hu
    rw [abs_le]
    constructor
    · rcases le_or_lt u 1 with h1 | h1
      · have := Real.sin_nonneg_of_nonneg_of_le_pi hu (by linarith [Real.pi_gt_three])
        linarith
      · linarith [Real.neg_one_le_sin u]
    · exact Real.sin_le hu
  rcases le_total 0 t with ht | ht
  · rw [abs_of_nonneg ht]
    exact h t ht
  · have h' := h (-t) (by linarith)
    rw [Real.sin_neg, abs_neg] at h'
    rw [abs_of_nonpos ht]
    exact h'

theorem applyWaveMotionF32_eq [FloorRing α] (sqrt sin : α → α) (self : WaterParticle α)
    (source : Vector2 α) :
    applyWaveMotionF32 sqrt sin self source =
      if distanceToF32 sqrt self.position source < roundF32 0.3 ∧
          distanceToF32 sqrt self.position source > roundF32 0.0 then
        { position := self.position,
          velocity :=
            ⟨roundF32 (self.velocity.x
                + roundF32 (roundF32 (roundF32 waveFactor
                      * roundF32 (sin (roundF32 (distanceToF32 sqrt self.position source
                          * roundF32 10.0))))
                    * roundF32 (source.x - self.position.x))),
             roundF32 (self.velocity.y
                + roundF32 (roundF32 (roundF32 waveFactor
                      * roundF32 (sin (roundF32 (distanceToF32 sqrt self.position source
                          * roundF32 10.0))))
                    * roundF32 (source.y - self.position.y)))⟩ }
      else self :=
  rfl

theorem distanceToF32_example :
    distanceToF32 Real.sqrt (⟨0, -(1 / 16384)⟩ : Vector2 ℝ) ⟨0, 0⟩ = 1 / 16384 := by
  have r14 : roundF32 (1 / 16384 : ℝ) = 1 / 16384 := by
    have h := roundF32_zpow (α := ℝ) (-14) (by norm_num)
    have e : (2 : ℝ) ^ (-14 : ℤ) = 1 / 16384 := by norm_num
    rwa [e] at h
  have r28 : roundF32 (1 / 268435456 : ℝ) = 1 / 268435456 := by
    have h := roundF32_zpow (α := ℝ) (-28) (by norm_num)
    have e : (2 : ℝ) ^ (-28 : ℤ) = 1 / 268435456 := by norm_num
    rwa [e] at h
  have hdx : roundF32 ((0 : ℝ) - 0) = 0 := by rw [sub_zero, roundF32_zero]
  have hdy : roundF32 ((0 : ℝ) - -(1 / 16384)) = 1 / 16384 := by
    rw [show (0 : ℝ) - -(1 / 16384) = 1 / 16384 by norm_num, r14]
  have hsq : (1 / 16384 : ℝ) * (1 / 16384) = 1 / 268435456 := by norm_num
  have hroot : Real.sqrt (1 / 268435456 : ℝ) = 1 / 16384 := by
    rw [show (1 / 268435456 : ℝ) = (1 / 16384) ^ 2 by norm_num,
      Real.sqrt_sq (by norm_num)]
  simp only [distanceToF32, hdx, hdy, mul_zero, roundF32_zero, zero_add, hsq, r28, hroot, r14]

theorem roundF32_absorbs_small (δ : ℝ) (h : |δ| ≤ 1 / 1073741824) :
    roundF32 (-813695 / 16777216 + δ) = -813695 / 16777216 := by
  rw [abs_le] at h
  have hneg : -813695 / 16777216 + δ < 0 := by linarith [h.2]
  have habs : |-813695 / 16777216 + δ| = -(-813695 / 16777216 + δ) := abs_of_neg hneg
  have e5 : (2 : ℝ) ^ (-5 : ℤ) = 1 / 32 := by norm_num
  have e4 : (2 : ℝ) ^ (-5 + 1 : ℤ) = 1 / 16 := by norm_num
  have e28 : (2 : ℝ) ^ (-5 - 23 : ℤ) = 1 / 268435456 := by norm_num
  have hr := roundF32_eq_of_near (-813695 / 16777216 + δ) (-5) (-13019120) (by norm_num)
    (by rw [habs, e5]; linarith [h.2]) (by rw [habs, e4]; linarith [h.1])
    (by
      rw [e28, abs_lt]
      constructor <;> push_cast <;> linarith [h.1, h.2])
  rw [hr, e28]
  push_cast
  norm_num

theorem wave_impulse_bound (t : ℝ) (ht : |t| ≤ 1 / 16384) :
    |roundF32 (roundF32 (roundF32 (waveFactor : ℝ)
          * roundF32 (Real.sin (roundF32 (t * roundF32 10.0))))
        * (1 / 16384))| ≤ 1 / 1073741824 := by
  have e4 : (2 : ℝ) ^ (4 : ℤ) = 16 := by norm_num
  have e6 : (2 : ℝ) ^ (-6 : ℤ) = 1 / 64 := by norm_num
  have e10 : (2 : ℝ) ^ (-10 : ℤ) = 1 / 1024 := by norm_num
  have e16 : (2 : ℝ) ^ (-16 : ℤ) = 1 / 65536 := by norm_num
  have e30 : (2 : ℝ) ^ (-30 : ℤ) = 1 / 1073741824 := by norm_num
  have b10 : |roundF32 (10.0 : ℝ)| ≤ 16 := by
    have h := abs_roundF32_le_zpow (10.0 : ℝ) 4 (by norm_num)
      (by rw [e4]; norm_num [abs_le])
    rwa [e4] at h
  have bT : |roundF32 (t * roundF32 10.0)| ≤ 1 / 1024 := by
    have h := abs_roundF32_le_zpow (t * roundF32 10.0) (-10) (by norm_num)
      (by
        rw [e10, abs_mul]
        calc |t| * |roundF32 (10.0 : ℝ)| ≤ 1 / 16384 * 16 :=
              mul_le_mul ht b10 (abs_nonneg _) (by norm_num)
          _ = 1 / 1024 := by norm_num)
    rwa [e10] at h
  have bS : |roundF32 (Real.sin (roundF32 (t * roundF32 10.0)))| ≤ 1 / 1024 := by
    have h := abs_roundF32_le_zpow (Real.sin (roundF32 (t * roundF32 10.0))) (-10)
      (by norm_num) (by rw [e10]; exact le_trans (abs_sin_le_abs_self _) bT)
    rwa [e10] at h
  have bW : |roundF32 (waveFactor : ℝ)| ≤ 1 / 64 := by
    have h := abs_roundF32_le_zpow (waveFactor : ℝ) (-6) (by norm_num)
      (by rw [e6]; norm_num [waveFactor, abs_le])
    rwa [e6] at h
  have bF : |roundF32 (roundF32 (waveFactor : ℝ)
      * roundF32 (Real.sin (roundF32 (t * roundF32 10.0))))| ≤ 1 / 65536 := by
    have h := abs_roundF32_le_zpow (roundF32 (waveFactor : ℝ)
      * roundF32 (Real.sin (roundF32 (t * roundF32 10.0)))) (-16) (by norm_num)
      (by
        rw [e16, abs_mul]
        calc |roundF32 (waveFactor : ℝ)|
              * |roundF32 (Real.sin (roundF32 (t * roundF32 10.0)))|
            ≤ 1 / 64 * (1 / 1024) := mul_le_mul bW bS (abs_nonneg _) (by norm_num)
          _ = 1 / 65536 := by norm_num)
    rwa [e16] at h
  have h := abs_roundF32_le_zpow (roundF32 (roundF32 (waveFactor : ℝ)
      * roundF32 (Real.sin (roundF32 (t * roundF32 10.0)))) * (1 / 16384)) (-30)
    (by norm_num)
    (by
      rw [e30, abs_mul, abs_of_pos (by norm_num : (0 : ℝ) < 1 / 16384)]
      calc |roundF32 (roundF32 (waveFactor : ℝ)
              * roundF32 (Real.sin (roundF32 (t * roundF32 10.0))))| * (1 / 16384)
          ≤ 1 / 65536 * (1 / 16384) := mul_le_mul_of_nonneg_right bF (by norm_num)
        _ = 1 / 1073741824 := by norm_num)
  rwa [e30] at h

/-- C19 as stated fails on the `float` program: for the particle at
`(0, -1/16384)` with velocity `(0, -813695/16777216)` (the `float` nearest to
`-0.0485`) and the wave source at `(0, 0)`, all of them `float` values, the
distance `1/16384` lies in the range `(0, 0.3)`, both exactly and as the code
computes it, and the test of line 124 succeeds; yet `applyWaveMotion`, with each
`float` operation rounded to binary32, returns the particle unchanged: the
impulse is at most `2^-30`, below half the spacing `2^-28` of `float` values
at the velocity.  The velocity change is `(0, 0)` and its dot product with
`source - position` is `0`, not strictly positive.  Of `std::sin` the proof
uses only that its value at a `float` of magnitude at most `2^-10` has magnitude
at most `2^-10`. -/
theorem wave_impulse_absorbed_in_binary32 :
    roundF32 (-0.0485 : ℝ) = -813695 / 16777216 ∧
    roundF32 (-(1 / 16384) : ℝ) = -(1 / 16384) ∧
    distanceTo Real.sqrt (⟨0, -(1 / 16384)⟩ : Vector2 ℝ) ⟨0, 0⟩ = 1 / 16384 ∧
    distanceToF32 Real.sqrt (⟨0, -(1 / 16384)⟩ : Vector2 ℝ) ⟨0, 0⟩ = 1 / 16384 ∧
    (distanceToF32 Real.sqrt (⟨0, -(1 / 16384)⟩ : Vector2 ℝ) ⟨0, 0⟩ < roundF32 0.3 ∧
      distanceToF32 Real.sqrt (⟨0, -(1 / 16384)⟩ : Vector2 ℝ) ⟨0, 0⟩ > roundF32 0.0) ∧
    applyWaveMotionF32 Real.sqrt Real.sin
        (⟨⟨0, -(1 / 16384)⟩, ⟨0, -813695 / 16777216⟩⟩ : WaterParticle ℝ) ⟨0, 0⟩
      = ⟨⟨0, -(1 / 16384)⟩, ⟨0, -813695 / 16777216⟩⟩ ∧
    ¬ (0 <
      ((applyWaveMotionF32 Real.sqrt Real.sin
            (⟨⟨0, -(1 / 16384)⟩, ⟨0, -813695 / 16777216⟩⟩ : WaterParticle ℝ)
            ⟨0, 0⟩).velocity.x - 0) * (0 - 0)
        + ((applyWaveMotionF32 Real.sqrt Real.sin
            (⟨⟨0, -(1 / 16384)⟩, ⟨0, -813695 / 16777216⟩⟩ : WaterParticle ℝ)
            ⟨0, 0⟩).velocity.y - -813695 / 16777216) * (0 - -(1 / 16384))) := by
  have hD := distanceToF32_example
  have h03 : (1 / 16384 : ℝ) < roundF32 0.3 := by
    have h := zpow_le_roundF32 (0.3 : ℝ) (-2) (by norm_num) (by norm_num)
    have e : (2 : ℝ) ^ (-2 : ℤ) = 1 / 4 := by norm_num
    rw [e] at h
    linarith
  have h00 : roundF32 (0.0 : ℝ) = 0 := by
    rw [show (0.0 : ℝ) = 0 by norm_num, roundF32_zero]
  have hguard : distanceToF32 Real.sqrt (⟨0, -(1 / 16384)⟩ : Vector2 ℝ) ⟨0, 0⟩ < roundF32 0.3 ∧
      distanceToF32 Real.sqrt (⟨0, -(1 / 16384)⟩ : Vector2 ℝ) ⟨0, 0⟩ > roundF32 0.0 := by
    rw [hD, h00]
    exact ⟨h03, by norm_num⟩
  have r14 : roundF32 (1 / 16384 : ℝ) = 1 / 16384 := by
    have h := roundF32_zpow (α := ℝ) (-14) (by norm_num)
    have e : (2 : ℝ) ^ (-14 : ℤ) = 1 / 16384 := by norm_num
    rwa [e] at h
  have hdx : roundF32 ((0 : ℝ) - 0) = 0 := by rw [sub_zero, roundF32_zero]
  have hdy : roundF32 ((0 : ℝ) - -(1 / 16384)) = 1 / 16384 := by
    rw [show (0 : ℝ) - -(1 / 16384) = 1 / 16384 by norm_num, r14]
  have hrun : applyWaveMotionF32 Real.sqrt Real.sin
        (⟨⟨0, -(1 / 16384)⟩, ⟨0, -813695 / 16777216⟩⟩ : WaterParticle ℝ) ⟨0, 0⟩
      = ⟨⟨0, -(1 / 16384)⟩, ⟨0, -813695 / 16777216⟩⟩ := by
    rw [applyWaveMotionF32_eq]
    simp only []
    rw [if_pos hguard, hD, hdx, hdy, mul_zero, roundF32_zero, add_zero, roundF32_zero,
      roundF32_absorbs_small _ (wave_impulse_bound (1 / 16384) (by norm_num [abs_le]))]
  refine ⟨?_, ?_, ?_, hD, hguard, hrun, ?_⟩
  · have e5 : (2 : ℝ) ^ (-5 : ℤ) = 1 / 32 := by norm_num
    have e4 : (2 : ℝ) ^ (-5 + 1 : ℤ) = 1 / 16 := by norm_num
    have e28 : (2 : ℝ) ^ (-5 - 23 : ℤ) = 1 / 268435456 := by norm_num
    have habs : |(-0.0485 : ℝ)| = 0.0485 := by norm_num [abs_of_neg]
    have hr := roundF32_eq_of_near (-0.0485 : ℝ) (-5) (-13019120) (by norm_num)
      (by rw [habs, e5]; norm_num) (by rw [habs, e4]; norm_num)
      (by rw [e28, abs_lt]; constructor <;> norm_num)
    rw [hr, e28]
    norm_num
  · have h := roundF32_zpow (α := ℝ) (-14) (by norm_num)
    have e : (2 : ℝ) ^ (-14 : ℤ) = 1 / 16384 := by norm_num
    rw [e] at h
    have e5 : (2 : ℝ) ^ (-14 + 1 : ℤ) = 1 / 8192 := by norm_num
    have e28 : (2 : ℝ) ^ (-14 - 23 : ℤ) = 1 / 137438953472 := by norm_num
    have habs : |(-(1 / 16384) : ℝ)| = 1 / 16384 := by norm_num [abs_of_neg]
    have hr := roundF32_eq_of_near (-(1 / 16384) : ℝ) (-14) (-8388608) (by norm_num)
      (by rw [habs, e]) (by rw [habs, e5]; norm_num)
      (by rw [e28, abs_lt]; constructor <;> norm_num)
    rw [hr, e28]
    norm_num
  · have h : ((0 : ℝ) - 0) * (0 - 0) + (0 - -(1 / 16384)) * (0 - -(1 / 16384))
        = (1 / 16384) ^ 2 := by norm_num
    simp only [distanceTo]
    rw [h, Real.sqrt_sq (by norm_num)]
  · rw [hrun]
    norm_num

end WaterSim
